import Mathlib

/-
Verification of the CELT IMDCT rotation stages and mixed-radix FFT butterfly
kernels (imdct_prerotate_f32.c, imdct_postrotate_f32.c, kf_bfly3_m1.c,
kf_bfly4_m1.c, kf_bfly4_mx.c, kf_bfly5_m1.c).

Modelling conventions.
The kernels are straight-line single-precision floating-point dataflow over
caller-supplied buffers.  We embed them generically over an abstract
operation structure FOps F supplying the primitive binary32 operations
(add, sub, mul, neg and the literal constants 1.0f, -1.0f, 0.5f).  A theorem
proved for EVERY interpretation of FOps in particular holds for the free
term-algebra interpretation, so an equality established without any law on
the operations states that the two sides perform literally the same
primitive operations on the same inputs - the right notion of bit-for-bit
agreement for deterministic IEEE-754 arithmetic.

Where a claim states a formula with subtraction or with the factors of a
product in the opposite order from the code (the code realises some
negations as multiplications by the constant -1.0f and one lane-keeping
multiplication by 1.0f), we assume the law set FLaws, each field of which is
an exact identity of IEEE-754 binary32 arithmetic (x*1 = x, x*(-1) = -x,
a + (-b) = a - b, a - (-b) = a + b, commutativity of + and *, and
(-a)*b = -(a*b)); no reassociation or distribution law is assumed.

Buffers are total maps Int -> F (float granularity for the two IMDCT
rotation stages, which the C code addresses float-by-float) or
Int -> F x F (complex granularity for the butterfly kernels, whose C code
addresses kissCpx cells; every NEON access there is complex-cell aligned).
The double-precision spectral input of the prerotation is a map Int -> D
together with the narrowing map D -> F standing for the (float) cast.
C for-loops become structural iteration iterF over the trip count, with the
loop counter passed to the body; int-typed size parameters stay Int and
non-positive trip counts give zero iterations exactly as in C.
-/

namespace Gopus

/-- Primitive single-precision operations, kept abstract: add, sub, mul, neg
are the IEEE-754 binary32 operations, and one, negOne, half are the
literals 1.0f, -1.0f, 0.5f appearing in the kernels. -/
structure FOps (F : Type) : Type where
  add : F → F → F
  sub : F → F → F
  mul : F → F → F
  neg : F → F
  one : F
  negOne : F
  half : F

/-- Exact identities of IEEE-754 binary32 arithmetic used to bridge between
the sign-trick form of the code (multiplications by -1.0f and 1.0f) and the
plain formulas of the specification.  Every field is bit-exact for binary32
(NaN payloads aside); no reassociation or distribution is assumed. -/
structure FLaws {F : Type} (ops : FOps F) : Prop where
  mul_one : ∀ a, ops.mul a ops.one = a
  mul_negOne : ∀ a, ops.mul a ops.negOne = ops.neg a
  add_neg : ∀ a b, ops.add a (ops.neg b) = ops.sub a b
  sub_neg : ∀ a b, ops.sub a (ops.neg b) = ops.add a b
  add_comm : ∀ a b, ops.add a b = ops.add b a
  mul_comm : ∀ a b, ops.mul a b = ops.mul b a
  neg_mul : ∀ a b, ops.neg (ops.mul a b) = ops.mul (ops.neg a) b

/-- The rational numbers interpret the operation structure; used to witness
the theorems on concrete inputs. -/
def ratOps : FOps ℚ where
  add := (· + ·)
  sub := (· - ·)
  mul := (· * ·)
  neg := (- ·)
  one := 1
  negOne := -1
  half := 1/2

/-- The rational interpretation satisfies the IEEE-exact law set. -/
theorem ratLaws : FLaws ratOps := by
  constructor <;> intros <;> simp [ratOps] <;> ring

/-- Pointwise store into a flat buffer: the effect of a single write through
a pointer at (integer) offset j. -/
def upd {X : Type} (buf : Int → X) (j : Int) (v : X) : Int → X :=
  fun k => if k = j then v else buf k

theorem upd_self {X : Type} (buf : Int → X) (j : Int) (v : X) :
    upd buf j v j = v := by simp [upd]

theorem upd_other {X : Type} (buf : Int → X) (j k : Int) (v : X) (h : k ≠ j) :
    upd buf j v k = buf k := by simp [upd, h]

/-- Structural iteration: iterF step k s runs step 0, step 1, ..., step (k-1)
in order, modelling a C for-loop with trip count k whose body may depend on
the loop counter. -/
def iterF {α : Type} (step : Nat → α → α) : Nat → α → α
  | 0, s => s
  | k+1, s => step k (iterF step k s)

theorem iterF_zero {α : Type} (step : Nat → α → α) (s : α) :
    iterF step 0 s = s := rfl

theorem iterF_succ {α : Type} (step : Nat → α → α) (k : Nat) (s : α) :
    iterF step (k+1) s = step k (iterF step k s) := rfl

/-- A loop tail starting at counter value off, run after the first off
iterations, is the same as running the whole loop. -/
theorem iterF_shift {α : Type} (step : Nat → α → α) (off r : Nat) (s : α) :
    iterF (fun k => step (off + k)) r (iterF step off s) = iterF step (off + r) s := by
  induction r with
  | zero => rfl
  | succ k ih =>
    rw [iterF_succ, ih, show off + (k+1) = (off+k)+1 by omega, iterF_succ]

/-- If every executed pair-iteration equals the two scalar iterations it
covers, the paired loop equals the scalar loop of twice the trip count. -/
theorem iterF_pair {α : Type} (pair step : Nat → α → α) (P : Nat) (s : α)
    (h : ∀ k, k < P → ∀ t, pair k t = step (2*k+1) (step (2*k) t)) :
    iterF pair P s = iterF step (2*P) s := by
  induction P with
  | zero => rfl
  | succ p ih =>
    rw [iterF_succ, h p (by omega), ih (fun k hk t => h k (by omega) t)]
    rw [show 2*(p+1) = (2*p+1)+1 by omega, iterF_succ, iterF_succ]

/-- Two loops whose bodies agree on every executed iteration compute the
same result. -/
theorem iterF_congr {α : Type} (s1 s2 : Nat → α → α) (K : Nat) (s : α)
    (h : ∀ k, k < K → ∀ t, s1 k t = s2 k t) : iterF s1 K s = iterF s2 K s := by
  induction K with
  | zero => rfl
  | succ k ih =>
    rw [iterF_succ, iterF_succ, ih (fun k hk t => h k (by omega) t),
      h k (by omega)]

/-- A buffer position untouched by every executed iteration is untouched by
the loop. -/
theorem iterF_preserve {X : Type} (step : Nat → (Int → X) → (Int → X)) (K : Nat)
    (s : Int → X) (j : Int) (h : ∀ k, k < K → ∀ t, (step k t) j = t j) :
    iterF step K s j = s j := by
  induction K with
  | zero => rfl
  | succ k ih =>
    rw [iterF_succ, h k (by omega)]
    exact ih (fun k hk t => h k (by omega) t)

/-- A buffer position untouched by every iteration past i sees the value it
had after the first i+1 iterations. -/
theorem iterF_stable {X : Type} (step : Nat → (Int → X) → (Int → X)) (K i : Nat)
    (s : Int → X) (j : Int) (hi : i < K)
    (h : ∀ k, i < k → k < K → ∀ t, (step k t) j = t j) :
    iterF step K s j = iterF step (i+1) s j := by
  induction K with
  | zero => omega
  | succ k ih =>
    rcases Nat.lt_or_ge i k with hik | hik
    · rw [iterF_succ, h k (by omega) (by omega)]
      exact ih (by omega) (fun k' h1 h2 t => h k' h1 (by omega) t)
    · have : i = k := by omega
      subst this; rfl

section Imdct

variable {F D : Type} (ops : FOps F) (narrow : D → F)

/-- Body of the scalar remainder loop of imdct_prerotate_f32 (source lines
30-39): mirrored double-precision reads narrowed to single precision,
rotated by trig[i], trig[n4+i], stored interleaved (yi, yr) at out[2*i]. -/
def preStep (spec : Int → D) (trig : Int → F) (n2 n4 : Int) (i : Nat)
    (out : Int → F) : Int → F :=
  let x1 := narrow (spec (2*(i:Int)))
  let x2 := narrow (spec (n2 - 1 - 2*(i:Int)))
  let t0 := trig (i:Int)
  let t1 := trig (n4 + (i:Int))
  let yr := ops.add (ops.mul x2 t0) (ops.mul x1 t1)
  let yi := ops.sub (ops.mul x1 t0) (ops.mul x2 t1)
  upd (upd out (2*(i:Int)) yi) (2*(i:Int) + 1) yr

/-- Body of the vectorized pair loop of imdct_prerotate_f32 (source lines
9-28), written lane by lane: lane 0 is scalar index i, lane 1 is i+1; the
zip/combine store writes (yi0, yr0, yi1, yr1) at out + 2*i. -/
def prePair (spec : Int → D) (trig : Int → F) (n2 n4 : Int) (i : Nat)
    (out : Int → F) : Int → F :=
  let front : Int := 2*(i:Int)
  let back : Int := n2 - 1 - 2*(i:Int)
  let x1a := narrow (spec front)
  let x1b := narrow (spec (front + 2))
  let x2a := narrow (spec back)
  let x2b := narrow (spec (back - 2))
  let t0a := trig (i:Int)
  let t0b := trig ((i:Int) + 1)
  let t1a := trig (n4 + (i:Int))
  let t1b := trig (n4 + (i:Int) + 1)
  let yra := ops.add (ops.mul x2a t0a) (ops.mul x1a t1a)
  let yrb := ops.add (ops.mul x2b t0b) (ops.mul x1b t1b)
  let yia := ops.sub (ops.mul x1a t0a) (ops.mul x2a t1a)
  let yib := ops.sub (ops.mul x1b t0b) (ops.mul x2b t1b)
  upd (upd (upd (upd out front yia) (front + 1) yra) (front + 2) yib) (front + 3) yrb

/-- imdct_prerotate_f32: early return for n4 <= 0, then the vectorized pair
loop (trip count n4/2, scalar base index 2*k at pair counter k) followed by
the scalar remainder loop continuing at index 2*(n4/2). -/
def imdct_prerotate_f32 (out : Int → F) (spec : Int → D) (trig : Int → F)
    (n2 n4 : Int) : Int → F :=
  if n4 ≤ 0 then out
  else
    iterF (fun k => preStep ops narrow spec trig n2 n4 (2*(n4.toNat / 2) + k))
      (n4.toNat - 2*(n4.toNat / 2))
      (iterF (fun k => prePair ops narrow spec trig n2 n4 (2*k)) (n4.toNat / 2) out)

/-- The scalar-remainder formula of imdct_prerotate_f32 applied alone over
the full index range [0, n4). -/
def preScalarAll (out : Int → F) (spec : Int → D) (trig : Int → F)
    (n2 n4 : Int) : Int → F :=
  iterF (preStep ops narrow spec trig n2 n4) n4.toNat out

/-- One vectorized pair iteration of the prerotation performs exactly the
two scalar iterations it covers: the lanes compute the same operation trees
and the four stored floats land at the same offsets. -/
theorem prePair_eq_two (spec : Int → D) (trig : Int → F) (n2 n4 : Int) (i : Nat)
    (out : Int → F) :
    prePair ops narrow spec trig n2 n4 i out
      = preStep ops narrow spec trig n2 n4 (i+1)
          (preStep ops narrow spec trig n2 n4 i out) := by
  funext j
  simp only [prePair, preStep, upd]
  push_cast
  split_ifs <;> first | rfl | omega | (ring_nf)

/-- Positions other than out[2*i], out[2*i+1] are untouched by scalar
prerotation step i. -/
theorem preStep_frame (spec : Int → D) (trig : Int → F) (n2 n4 : Int) (i : Nat)
    (out : Int → F) (j : Int) (h1 : j ≠ 2*(i:Int)) (h2 : j ≠ 2*(i:Int) + 1) :
    preStep ops narrow spec trig n2 n4 i out j = out j := by
  simp only [preStep, upd]
  rw [if_neg h2, if_neg h1]

/-- Value stored by scalar prerotation step i at the even slot out[2*i]. -/
theorem preStep_at_even (spec : Int → D) (trig : Int → F) (n2 n4 : Int) (i : Nat)
    (out : Int → F) :
    preStep ops narrow spec trig n2 n4 i out (2*(i:Int))
      = ops.sub (ops.mul (narrow (spec (2*(i:Int)))) (trig (i:Int)))
                (ops.mul (narrow (spec (n2 - 1 - 2*(i:Int)))) (trig (n4 + (i:Int)))) := by
  simp only [preStep, upd]
  rw [if_neg (by omega)]
  simp

/-- Value stored by scalar prerotation step i at the odd slot out[2*i+1]. -/
theorem preStep_at_odd (spec : Int → D) (trig : Int → F) (n2 n4 : Int) (i : Nat)
    (out : Int → F) :
    preStep ops narrow spec trig n2 n4 i out (2*(i:Int) + 1)
      = ops.add (ops.mul (narrow (spec (n2 - 1 - 2*(i:Int)))) (trig (i:Int)))
                (ops.mul (narrow (spec (2*(i:Int)))) (trig (n4 + (i:Int)))) := by
  simp only [preStep, upd]
  simp

/-- The dual-path prerotation (vectorized pairs plus scalar remainder)
coincides with the scalar formula applied over the whole range. -/
theorem pre_eq_scalarAll (out : Int → F) (spec : Int → D) (trig : Int → F)
    (n2 n4 : Int) :
    imdct_prerotate_f32 ops narrow out spec trig n2 n4
      = preScalarAll ops narrow out spec trig n2 n4 := by
  unfold imdct_prerotate_f32 preScalarAll
  by_cases h : n4 ≤ 0
  · rw [if_pos h, show n4.toNat = 0 by omega, iterF_zero]
  · rw [if_neg h,
      iterF_pair (fun k => prePair ops narrow spec trig n2 n4 (2*k))
        (preStep ops narrow spec trig n2 n4) (n4.toNat / 2) out
        (fun k _ t => prePair_eq_two ops narrow spec trig n2 n4 (2*k) t),
      iterF_shift]
    congr 1
    omega

/-- The four values computed by one scalar iteration of
imdct_postrotate_f32 (source lines 52-69), read from the buffer before any
of the iteration's writes: (yr, yi) from the low cursor yp0 = 2*i with
trig[i], trig[n4+i], and (yr2, yi2) from the high cursor yp1 = n2-2-2*i
with trig[n4-i-1], trig[n2-i-1]. -/
def postVals (trig : Int → F) (n2 n4 : Int) (i : Nat) (buf : Int → F) :
    F × F × F × F :=
  (ops.add (ops.mul (buf (2*(i:Int) + 1)) (trig (i:Int)))
           (ops.mul (buf (2*(i:Int))) (trig (n4 + (i:Int)))),
   ops.sub (ops.mul (buf (2*(i:Int) + 1)) (trig (n4 + (i:Int))))
           (ops.mul (buf (2*(i:Int))) (trig (i:Int))),
   ops.add (ops.mul (buf (n2 - 2 - 2*(i:Int) + 1)) (trig (n4 - (i:Int) - 1)))
           (ops.mul (buf (n2 - 2 - 2*(i:Int))) (trig (n2 - (i:Int) - 1))),
   ops.sub (ops.mul (buf (n2 - 2 - 2*(i:Int) + 1)) (trig (n2 - (i:Int) - 1)))
           (ops.mul (buf (n2 - 2 - 2*(i:Int))) (trig (n4 - (i:Int) - 1))))

/-- The four stores of one scalar iteration of imdct_postrotate_f32, in
source order: buf[yp0] = yr, buf[yp1+1] = yi, buf[yp1] = yr2,
buf[yp0+1] = yi2. -/
def write4 (buf : Int → F) (n2 : Int) (i : Nat) (v : F × F × F × F) : Int → F :=
  upd (upd (upd (upd buf (2*(i:Int)) v.1)
    (n2 - 2 - 2*(i:Int) + 1) v.2.1)
    (n2 - 2 - 2*(i:Int)) v.2.2.1)
    (2*(i:Int) + 1) v.2.2.2

/-- One scalar iteration of imdct_postrotate_f32: all four reads happen
before all four writes, exactly as in the source. -/
def postStep (trig : Int → F) (n2 n4 : Int) (i : Nat) (buf : Int → F) :
    Int → F :=
  write4 buf n2 i (postVals ops trig n2 n4 i buf)

/-- Body of the vectorized pair loop of imdct_postrotate_f32 (source lines
13-50), written lane by lane for scalar iterations i (lane 0) and i+1
(lane 1): both 4-float loads (at yp0 and at yp1-2) happen before the two
4-float stores, the store at yp0 preceding the store at yp1-2; the high
lanes and the mirrored trig pairs are reversed as by vrev64. -/
def postPair (trig : Int → F) (n2 n4 : Int) (i : Nat) (buf : Int → F) :
    Int → F :=
  let yp0 : Int := 2*(i:Int)
  let yp1 : Int := n2 - 2 - 2*(i:Int)
  let lowIm0 := buf yp0
  let lowRe0 := buf (yp0 + 1)
  let lowIm1 := buf (yp0 + 2)
  let lowRe1 := buf (yp0 + 3)
  let highIm0 := buf yp1
  let highIm1 := buf (yp1 - 2)
  let highRe0 := buf (yp1 + 1)
  let highRe1 := buf (yp1 - 1)
  let t0a := trig (i:Int)
  let t0c := trig ((i:Int) + 1)
  let t1a := trig (n4 + (i:Int))
  let t1c := trig (n4 + (i:Int) + 1)
  let s0a := trig (n4 - (i:Int) - 1)
  let s0b := trig (n4 - (i:Int) - 2)
  let s1a := trig (n2 - (i:Int) - 1)
  let s1b := trig (n2 - (i:Int) - 2)
  let lowYr0 := ops.add (ops.mul lowRe0 t0a) (ops.mul lowIm0 t1a)
  let lowYr1 := ops.add (ops.mul lowRe1 t0c) (ops.mul lowIm1 t1c)
  let lowYi0 := ops.sub (ops.mul lowRe0 t1a) (ops.mul lowIm0 t0a)
  let lowYi1 := ops.sub (ops.mul lowRe1 t1c) (ops.mul lowIm1 t0c)
  let highYr0 := ops.add (ops.mul highRe0 s0a) (ops.mul highIm0 s1a)
  let highYr1 := ops.add (ops.mul highRe1 s0b) (ops.mul highIm1 s1b)
  let highYi0 := ops.sub (ops.mul highRe0 s1a) (ops.mul highIm0 s0a)
  let highYi1 := ops.sub (ops.mul highRe1 s1b) (ops.mul highIm1 s0b)
  let afterLo := upd (upd (upd (upd buf yp0 lowYr0) (yp0 + 1) highYi0)
    (yp0 + 2) lowYr1) (yp0 + 3) highYi1
  upd (upd (upd (upd afterLo (yp1 - 2) highYr1) (yp1 - 1) lowYi1)
    yp1 highYr0) (yp1 + 1) lowYi0

/-- The loop trip count of imdct_postrotate_f32: limit = (n4 + 1) >> 1,
i.e. ceil(n4/2) paired iterations for n4 >= 0. -/
def postLimit (n4 : Int) : Nat := (n4.toNat + 1) / 2

/-- imdct_postrotate_f32: early return when limit <= 0 (equivalently
n4 <= 0), then the vectorized pair loop (trip count limit/2, scalar base
2*k) followed by the scalar remainder continuing at 2*(limit/2). -/
def imdct_postrotate_f32 (buf trig : Int → F) (n2 n4 : Int) : Int → F :=
  if n4 ≤ 0 then buf
  else
    iterF (fun k => postStep ops trig n2 n4 (2*(postLimit n4 / 2) + k))
      (postLimit n4 - 2*(postLimit n4 / 2))
      (iterF (fun k => postPair ops trig n2 n4 (2*k)) (postLimit n4 / 2) buf)

/-- The scalar-remainder body of imdct_postrotate_f32 applied alone over
the full iteration range [0, ceil(n4/2)). -/
def postScalarAll (buf trig : Int → F) (n2 n4 : Int) : Int → F :=
  iterF (postStep ops trig n2 n4) (postLimit n4) buf

set_option maxHeartbeats 2000000 in
/-- One vectorized pair iteration of the postrotation performs exactly the
two scalar iterations it covers.  The geometric hypothesis expresses the
cursor separations that actually occur in the vectorized loop: either the
four touched complex cells are pairwise disjoint, or the pair straddles the
middle cell of an odd-n4 transform (n2 = 4*i+6), where the coinciding
reads and writes resolve to the same values. -/
theorem write4_other (buf : Int → F) (n2 : Int) (i : Nat) (v : F × F × F × F)
    (j : Int) (h1 : j ≠ 2*(i:Int)) (h2 : j ≠ n2 - 2 - 2*(i:Int) + 1)
    (h3 : j ≠ n2 - 2 - 2*(i:Int)) (h4 : j ≠ 2*(i:Int) + 1) :
    write4 buf n2 i v j = buf j := by
  simp only [write4, upd]
  rw [if_neg h4, if_neg h3, if_neg h2, if_neg h1]

set_option maxHeartbeats 2000000 in
/-- One vectorized pair iteration of the postrotation performs exactly the
two scalar iterations it covers.  The geometric hypothesis expresses the
cursor separations that actually occur in the vectorized loop: either the
four touched complex cells are pairwise disjoint, or the pair straddles the
middle cell of an odd-n4 transform (n2 = 4*i+6), where the coinciding
reads and writes resolve to the same values. -/
theorem postPair_eq_two (trig : Int → F) (n2 n4 : Int) (i : Nat) (buf : Int → F)
    (hn : n2 = 2*n4) (hgeo : 4*(i:Int) + 8 ≤ n2 ∨ n2 = 4*(i:Int) + 6) :
    postPair ops trig n2 n4 i buf
      = postStep ops trig n2 n4 (i+1) (postStep ops trig n2 n4 i buf) := by
  rcases hgeo with hA | hB
  · unfold postStep
    simp only [postVals]
    push_cast
    rw [write4_other buf n2 i _ (2*((i:Int)+1) + 1)
          (by omega) (by omega) (by omega) (by omega),
        write4_other buf n2 i _ (2*((i:Int)+1))
          (by omega) (by omega) (by omega) (by omega),
        write4_other buf n2 i _ (n2 - 2 - 2*((i:Int)+1) + 1)
          (by omega) (by omega) (by omega) (by omega),
        write4_other buf n2 i _ (n2 - 2 - 2*((i:Int)+1))
          (by omega) (by omega) (by omega) (by omega)]
    funext j
    simp only [postPair, write4, postVals, upd]
    push_cast
    split_ifs <;> first | rfl | omega | ring_nf
  · have hn4 : n4 = 2*(i:Int) + 3 := by omega
    subst hn4
    subst hn
    unfold postStep
    simp only [postVals]
    push_cast
    rw [write4_other buf (2*(2*(i:Int)+3)) i _ (2*((i:Int)+1) + 1)
          (by omega) (by omega) (by omega) (by omega),
        write4_other buf (2*(2*(i:Int)+3)) i _ (2*((i:Int)+1))
          (by omega) (by omega) (by omega) (by omega),
        write4_other buf (2*(2*(i:Int)+3)) i _ (2*(2*(i:Int)+3) - 2 - 2*((i:Int)+1) + 1)
          (by omega) (by omega) (by omega) (by omega),
        write4_other buf (2*(2*(i:Int)+3)) i _ (2*(2*(i:Int)+3) - 2 - 2*((i:Int)+1))
          (by omega) (by omega) (by omega) (by omega)]
    funext j
    simp only [postPair, write4, postVals, upd]
    push_cast
    split_ifs <;> first | rfl | omega | ring_nf

/-- The dual-path postrotation (vectorized pairs plus scalar remainder)
coincides with the scalar-remainder body applied over the whole iteration
range. -/
theorem post_eq_scalarAll (buf trig : Int → F) (n2 n4 : Int) (hn : n2 = 2*n4) :
    imdct_postrotate_f32 ops buf trig n2 n4 = postScalarAll ops buf trig n2 n4 := by
  unfold imdct_postrotate_f32 postScalarAll
  by_cases h : n4 ≤ 0
  · rw [if_pos h, show postLimit n4 = 0 by unfold postLimit; omega, iterF_zero]
  · rw [if_neg h,
      iterF_pair (fun k => postPair ops trig n2 n4 (2*k))
        (postStep ops trig n2 n4) (postLimit n4 / 2) buf
        (fun k hk t => postPair_eq_two ops trig n2 n4 (2*k) t hn
          (by unfold postLimit at hk; omega)),
      iterF_shift]
    congr 1
    unfold postLimit
    omega

/-- C1: imdct_prerotate_f32 writes nothing when n4 <= 0; for n4 >= 1 and
each i in [0, n4) it writes yi = x1*t0 - x2*t1 at out[2*i] (imaginary part
first) and yr = x2*t0 + x1*t1 at out[2*i+1], where x1, x2 are the
spectral reads spec[2*i] and spec[n2-1-2*i] narrowed to single precision
and t0 = trig[i], t1 = trig[n4+i], all in single-precision arithmetic. -/
theorem C1_prerotate_writes {F D : Type} (ops : FOps F) (narrow : D → F)
    (out : Int → F) (spec : Int → D) (trig : Int → F) (n2 n4 : Int) :
    (n4 ≤ 0 → imdct_prerotate_f32 ops narrow out spec trig n2 n4 = out) ∧
    (∀ i : Nat, (i:Int) < n4 →
      imdct_prerotate_f32 ops narrow out spec trig n2 n4 (2*(i:Int))
        = ops.sub (ops.mul (narrow (spec (2*(i:Int)))) (trig (i:Int)))
                  (ops.mul (narrow (spec (n2 - 1 - 2*(i:Int)))) (trig (n4 + (i:Int)))) ∧
      imdct_prerotate_f32 ops narrow out spec trig n2 n4 (2*(i:Int) + 1)
        = ops.add (ops.mul (narrow (spec (n2 - 1 - 2*(i:Int)))) (trig (i:Int)))
                  (ops.mul (narrow (spec (2*(i:Int)))) (trig (n4 + (i:Int))))) := by
  constructor
  · intro h
    unfold imdct_prerotate_f32
    rw [if_pos h]
  · intro i hi
    rw [pre_eq_scalarAll]
    unfold preScalarAll
    have hiN : i < n4.toNat := by omega
    constructor
    · rw [iterF_stable _ n4.toNat i out (2*(i:Int)) hiN
          (fun k h1 h2 t => preStep_frame ops narrow spec trig n2 n4 k t
            (2*(i:Int)) (by omega) (by omega)),
        iterF_succ, preStep_at_even]
    · rw [iterF_stable _ n4.toNat i out (2*(i:Int) + 1) hiN
          (fun k h1 h2 t => preStep_frame ops narrow spec trig n2 n4 k t
            (2*(i:Int) + 1) (by omega) (by omega)),
        iterF_succ, preStep_at_odd]

/-- Witness for C1 at F = D = Q, n2 = 8, n4 = 4, i = 1. -/
theorem C1_prerotate_writes_witness :
    ((1:Int) < 4) ∧
    (imdct_prerotate_f32 ratOps (id : ℚ → ℚ) (fun _ => 0) (fun j => (j:ℚ))
        (fun j => (j:ℚ)) 8 4 (2*((1:Nat):Int))
      = ratOps.sub (ratOps.mul (id ((2*((1:Nat):Int) : Int) : ℚ)) (((1:Nat):Int) : ℚ))
          (ratOps.mul (id ((8 - 1 - 2*((1:Nat):Int) : Int) : ℚ)) ((4 + ((1:Nat):Int) : Int) : ℚ)) ∧
     imdct_prerotate_f32 ratOps (id : ℚ → ℚ) (fun _ => 0) (fun j => (j:ℚ))
        (fun j => (j:ℚ)) 8 4 (2*((1:Nat):Int) + 1)
      = ratOps.add (ratOps.mul (id ((8 - 1 - 2*((1:Nat):Int) : Int) : ℚ)) (((1:Nat):Int) : ℚ))
          (ratOps.mul (id ((2*((1:Nat):Int) : Int) : ℚ)) ((4 + ((1:Nat):Int) : Int) : ℚ))) :=
  ⟨by norm_num,
   (C1_prerotate_writes ratOps (id : ℚ → ℚ) (fun _ => 0) (fun j => (j:ℚ))
      (fun j => (j:ℚ)) 8 4).2 1 (by norm_num)⟩

/-- C2: imdct_postrotate_f32 equals ceil(n4/2) iterations of the scalar
step with cursors yp0 = 2*i, yp1 = n2-2-2*i (a no-op leaving the buffer
untouched when n4 <= 0), and each scalar step stores
yr = re*t0 + im*t1 at buf[yp0] and yi = re*t1 - im*t0 at buf[yp1+1],
with (im, re) = (buf[yp0], buf[yp0+1]), t0 = trig[i], t1 = trig[n4+i]. -/
theorem C2_postrotate_iters {F : Type} (ops : FOps F) (buf trig : Int → F)
    (n2 n4 : Int) (hn : n2 = 2*n4) :
    (n4 ≤ 0 → imdct_postrotate_f32 ops buf trig n2 n4 = buf) ∧
    imdct_postrotate_f32 ops buf trig n2 n4
      = iterF (postStep ops trig n2 n4) ((n4.toNat + 1) / 2) buf ∧
    (∀ (i : Nat) (b : Int → F),
      postStep ops trig n2 n4 i b (2*(i:Int))
        = ops.add (ops.mul (b (2*(i:Int) + 1)) (trig (i:Int)))
                  (ops.mul (b (2*(i:Int))) (trig (n4 + (i:Int)))) ∧
      postStep ops trig n2 n4 i b (n2 - 2 - 2*(i:Int) + 1)
        = ops.sub (ops.mul (b (2*(i:Int) + 1)) (trig (n4 + (i:Int))))
                  (ops.mul (b (2*(i:Int))) (trig (i:Int)))) := by
  refine ⟨?_, ?_, ?_⟩
  · intro h
    unfold imdct_postrotate_f32
    rw [if_pos h]
  · rw [post_eq_scalarAll ops buf trig n2 n4 hn]
    unfold postScalarAll postLimit
    rfl
  · intro i b
    by_cases hmid : n2 = 4*(i:Int) + 2
    · constructor
      · simp only [postStep, write4, postVals, upd]
        rw [if_neg (by omega), if_pos (by omega)]
        congr 1 <;> congr 1 <;> congr 1 <;> omega
      · simp only [postStep, write4, postVals, upd]
        rw [if_pos (by omega)]
        congr 1 <;> congr 1 <;> congr 1 <;> omega
    · constructor
      · simp only [postStep, write4, postVals, upd]
        rw [if_neg (by omega), if_neg (by omega), if_neg (by omega)]
        simp
      · simp only [postStep, write4, postVals, upd]
        rw [if_neg (by omega), if_neg (by omega)]
        simp

/-- Witness for C2 at F = Q, n2 = 8, n4 = 4. -/
theorem C2_postrotate_iters_witness :
    ((8:Int) = 2*4) ∧
    imdct_postrotate_f32 ratOps (fun j => (j:ℚ)) (fun j => (j:ℚ)) 8 4
      = iterF (postStep ratOps (fun j => (j:ℚ)) 8 4) (((4:Int).toNat + 1) / 2)
          (fun j => (j:ℚ)) :=
  ⟨by norm_num,
   (C2_postrotate_iters ratOps (fun j => (j:ℚ)) (fun j => (j:ℚ)) 8 4 (by norm_num)).2.1⟩

/-- C3: each postrotation iteration rotates the high-half sample (read with
reversed lane order, (im2, re2) = (buf[yp1], buf[yp1+1])) by t0 = trig[n4-i-1],
t1 = trig[n2-i-1] with the same formula, writing yr = re2*t0 + im2*t1 into
the high slot position buf[yp1] and yi = re2*t1 - im2*t0 into the low slot
position buf[yp0+1]: the results cross between the low and high storage
locations. -/
theorem C3_postrotate_high {F : Type} (ops : FOps F) (trig : Int → F)
    (n2 n4 : Int) (hn : n2 = 2*n4) :
    ∀ (i : Nat) (b : Int → F),
      postStep ops trig n2 n4 i b (n2 - 2 - 2*(i:Int))
        = ops.add (ops.mul (b (n2 - 2 - 2*(i:Int) + 1)) (trig (n4 - (i:Int) - 1)))
                  (ops.mul (b (n2 - 2 - 2*(i:Int))) (trig (n2 - (i:Int) - 1))) ∧
      postStep ops trig n2 n4 i b (2*(i:Int) + 1)
        = ops.sub (ops.mul (b (n2 - 2 - 2*(i:Int) + 1)) (trig (n2 - (i:Int) - 1)))
                  (ops.mul (b (n2 - 2 - 2*(i:Int))) (trig (n4 - (i:Int) - 1))) := by
  intro i b
  constructor
  · simp only [postStep, write4, postVals, upd]
    rw [if_neg (by omega)]
    simp
  · simp only [postStep, write4, postVals, upd]
    simp

/-- Witness for C3 at F = Q, n2 = 8, n4 = 4, i = 0. -/
theorem C3_postrotate_high_witness :
    ((8:Int) = 2*4) ∧
    postStep ratOps (fun j => (j:ℚ)) 8 4 0 (fun j => (j:ℚ)) (8 - 2 - 2*((0:Nat):Int))
      = ratOps.add
          (ratOps.mul ((8 - 2 - 2*((0:Nat):Int) + 1 : Int) : ℚ) ((4 - ((0:Nat):Int) - 1 : Int) : ℚ))
          (ratOps.mul ((8 - 2 - 2*((0:Nat):Int) : Int) : ℚ) ((8 - ((0:Nat):Int) - 1 : Int) : ℚ)) :=
  ⟨by norm_num,
   (C3_postrotate_high ratOps (fun j => (j:ℚ)) 8 4 (by norm_num) 0 (fun j => (j:ℚ))).1⟩

/-- C9: the dual-path implementations (vectorized pair loop plus scalar
remainder) of both rotation stages produce buffers identical to the scalar
remainder formulas applied alone over the full index range; the equality
holds for every interpretation of the primitive operations, hence the
vector lanes perform the same single-precision operations in the same
order as the scalar path and agree bit for bit. -/
theorem C9_vector_scalar_equal {F D : Type} (ops : FOps F) (narrow : D → F)
    (out buf : Int → F) (spec : Int → D) (trig : Int → F) (n2 n4 : Int)
    (hn : n2 = 2*n4) :
    imdct_prerotate_f32 ops narrow out spec trig n2 n4
      = preScalarAll ops narrow out spec trig n2 n4 ∧
    imdct_postrotate_f32 ops buf trig n2 n4
      = postScalarAll ops buf trig n2 n4 :=
  ⟨pre_eq_scalarAll ops narrow out spec trig n2 n4,
   post_eq_scalarAll ops buf trig n2 n4 hn⟩

/-- Witness for C9 at F = D = Q, n2 = 6, n4 = 3 (odd n4 exercises both the
vectorized pair and the scalar remainder). -/
theorem C9_vector_scalar_equal_witness :
    ((6:Int) = 2*3) ∧
    imdct_prerotate_f32 ratOps (id : ℚ → ℚ) (fun _ => 0) (fun j => (j:ℚ))
        (fun j => (j:ℚ)) 6 3
      = preScalarAll ratOps (id : ℚ → ℚ) (fun _ => 0) (fun j => (j:ℚ))
          (fun j => (j:ℚ)) 6 3 :=
  ⟨by norm_num,
   (C9_vector_scalar_equal ratOps (id : ℚ → ℚ) (fun _ => 0) (fun j => (j:ℚ))
      (fun j => (j:ℚ)) (fun j => (j:ℚ)) 6 3 (by norm_num)).1⟩

/-- C10: for odd n4 (n4 = 2*i+1) the final scalar postrotation iteration
has both cursors at the middle position n4-1, its high-half trig indices
coincide with the low-half ones, the middle complex sample is read before
either write, and the step collapses to exactly one well-defined rotation
(the high-half writes overwrite the low-half writes with bit-identical
values); when the middle falls into the vectorized path (odd iteration
index), the vector pair behaves as the two scalar steps. -/
theorem C10_middle_iteration {F : Type} (ops : FOps F) (trig : Int → F)
    (n2 n4 : Int) (i : Nat) (hn : n2 = 2*n4) (hmid : n4 = 2*(i:Int) + 1) :
    (2*(i:Int) = n4 - 1 ∧ n2 - 2 - 2*(i:Int) = n4 - 1) ∧
    (n4 - (i:Int) - 1 = (i:Int) ∧ n2 - (i:Int) - 1 = n4 + (i:Int)) ∧
    (∀ b : Int → F, postStep ops trig n2 n4 i b
        = upd (upd b (n4 - 1)
            (ops.add (ops.mul (b n4) (trig (i:Int)))
                     (ops.mul (b (n4 - 1)) (trig (n4 + (i:Int))))))
            n4
            (ops.sub (ops.mul (b n4) (trig (n4 + (i:Int))))
                     (ops.mul (b (n4 - 1)) (trig (i:Int))))) ∧
    (i % 2 = 1 → ∀ b : Int → F,
      postPair ops trig n2 n4 (i - 1) b
        = postStep ops trig n2 n4 i (postStep ops trig n2 n4 (i - 1) b)) := by
  refine ⟨⟨by omega, by omega⟩, ⟨by omega, by omega⟩, ?_, ?_⟩
  · intro b
    subst hmid
    subst hn
    funext j
    simp only [postStep, write4, postVals, upd]
    split_ifs <;> first | rfl | omega | ring_nf
  · intro hodd b
    have hi : i - 1 + 1 = i := by omega
    rw [← hi]
    exact postPair_eq_two ops trig n2 n4 (i-1) b hn (Or.inr (by omega))

/-- Witness for C10 at F = Q, n2 = 6, n4 = 3, i = 1 (odd iteration index,
middle handled by the vectorized pair). -/
theorem C10_middle_iteration_witness :
    ((6:Int) = 2*3 ∧ (3:Int) = 2*((1:Nat):Int) + 1) ∧
    (2*((1:Nat):Int) = 3 - 1 ∧ 6 - 2 - 2*((1:Nat):Int) = 3 - 1) :=
  ⟨⟨by norm_num, by norm_num⟩,
   (C10_middle_iteration ratOps (fun j => (j:ℚ)) 6 3 1 (by norm_num)
      (by norm_num)).1⟩

end Imdct

section Butterflies

variable {F : Type} (ops : FOps F)

/-- Lane-wise complex addition (vadd_f32 on a (re, im) cell). -/
def cadd (a b : F × F) : F × F := (ops.add a.1 b.1, ops.add a.2 b.2)

/-- Lane-wise complex subtraction (vsub_f32 on a (re, im) cell). -/
def csub (a b : F × F) : F × F := (ops.sub a.1 b.1, ops.sub a.2 b.2)

/-- The NEON complex multiply cmul2 of kf_bfly4_mx.c (lines 8-17): the
sign-vector (-1, 1) trick gives real lane a.r*b.r + (a.i*b.i)*(-1.0f) and
imaginary lane a.i*b.r + (a.r*b.i)*(+1.0f). -/
def cmul (a b : F × F) : F × F :=
  (ops.add (ops.mul a.1 b.1) (ops.mul (ops.mul a.2 b.2) ops.negOne),
   ops.add (ops.mul a.2 b.1) (ops.mul (ops.mul a.1 b.2) ops.one))

/-- Complex multiplication exactly as the specification writes it:
(a.re*b.re - a.im*b.im, a.re*b.im + a.im*b.re). -/
def cmulSpec (a b : F × F) : F × F :=
  (ops.sub (ops.mul a.1 b.1) (ops.mul a.2 b.2),
   ops.add (ops.mul a.1 b.2) (ops.mul a.2 b.1))

/-- Under the exact IEEE identities, the sign-vector complex multiply of the
code computes the specification formula. -/
theorem cmul_eq_spec (L : FLaws ops) (a b : F × F) :
    cmul ops a b = cmulSpec ops a b := by
  unfold cmul cmulSpec
  rw [L.mul_one, L.mul_negOne, L.add_neg, L.add_comm (ops.mul a.2 b.1)]

/-- A +90-degree rotation as the specification describes it: swap the two
lanes of a complex value and negate one of them. -/
def rot90 (a : F × F) : F × F := (a.2, ops.neg a.1)

/-- Scale a complex value by a scalar written on the left (0.5*sum,
epi*diff in the specification formulas). -/
def cscaleL (s : F) (a : F × F) : F × F := (ops.mul s a.1, ops.mul s a.2)

/-- Scale a complex value by a scalar written on the right
(rotate90(diff) * epi in the specification formulas). -/
def cscaleR (a : F × F) (s : F) : F × F := (ops.mul a.1 s, ops.mul a.2 s)

/-- The pure combine of kf_bfly4_m1.c (lines 10-35) on one group of four
complex cells: pairwise sums t0 = (c0+c2, c1+c3) and differences
t1 = (c0-c2, c1-c3); the vext-by-two rotation yields the DC/Nyquist pair
from t0's halves, and the sign-bit-XOR rotations of t1's high half
(modelled as explicit lane swap and negation) combine with its low half.
Returned in store order (fout[0], fout[1], fout[2], fout[3]). -/
def bfly4Combine (c0 c1 c2 c3 : F × F) :
    (F × F) × (F × F) × (F × F) × (F × F) :=
  let t0l := cadd ops c0 c2
  let t0h := cadd ops c1 c3
  let s0 := csub ops c0 c2
  let s1 := csub ops c1 c3
  let rotpos : F × F := (s1.2, ops.neg s1.1)
  let rotneg : F × F := (ops.neg s1.2, s1.1)
  (cadd ops t0l t0h, cadd ops s0 rotpos, csub ops t0l t0h, cadd ops s0 rotneg)

/-- One group iteration of kf_bfly4_m1 at complex base b: load the four
contiguous cells, combine, store back in order. -/
def bfly4m1Step (b : Int) (f : Int → F × F) : Int → F × F :=
  let v := bfly4Combine ops (f b) (f (b + 1)) (f (b + 2)) (f (b + 3))
  upd (upd (upd (upd f b v.1) (b + 1) v.2.1) (b + 2) v.2.2.1) (b + 3) v.2.2.2

/-- kf_bfly4_m1: n independent contiguous groups of 4 complex cells,
group i based at cell 4*i (fout += 4 per iteration). -/
def kf_bfly4_m1 (f : Int → F × F) (n : Int) : Int → F × F :=
  iterF (fun i => bfly4m1Step ops (4*(i:Int))) n.toNat f

theorem bfly4m1Step_frame (b : Int) (f : Int → F × F) (j : Int)
    (h : j < b ∨ b + 4 ≤ j) : bfly4m1Step ops b f j = f j := by
  simp only [bfly4m1Step, upd]
  rw [if_neg (by omega), if_neg (by omega), if_neg (by omega), if_neg (by omega)]

theorem bfly4m1Step_at (b : Int) (f : Int → F × F) :
    bfly4m1Step ops b f b
        = (bfly4Combine ops (f b) (f (b + 1)) (f (b + 2)) (f (b + 3))).1 ∧
    bfly4m1Step ops b f (b + 1)
        = (bfly4Combine ops (f b) (f (b + 1)) (f (b + 2)) (f (b + 3))).2.1 ∧
    bfly4m1Step ops b f (b + 2)
        = (bfly4Combine ops (f b) (f (b + 1)) (f (b + 2)) (f (b + 3))).2.2.1 ∧
    bfly4m1Step ops b f (b + 3)
        = (bfly4Combine ops (f b) (f (b + 1)) (f (b + 2)) (f (b + 3))).2.2.2 := by
  refine ⟨?_, ?_, ?_, ?_⟩ <;>
    · simp only [bfly4m1Step, upd]
      split_ifs <;> first | rfl | omega

/-- Reads of group i are original values: groups before i never touch the
cells of group i. -/
theorem bfly4m1_reads (f : Int → F × F) (i : Nat) (j : Int)
    (hj1 : 4*(i:Int) ≤ j) (hj2 : j < 4*(i:Int) + 4) :
    iterF (fun k => bfly4m1Step ops (4*(k:Int))) i f j = f j :=
  iterF_preserve _ i f _
    (fun k hk t => bfly4m1Step_frame ops (4*(k:Int)) t _ (by omega))

/-- C7: kf_bfly4_m1 transforms each of the n contiguous groups of 4
complex samples in place: with pairwise sums t0 = (f0+f2, f1+f3) and
differences t1 = (f0-f2, f1-f3), the outputs at positions 0 and 2 are
a+b and a-b for t0's halves a, b (the DC/Nyquist pair), and the outputs
at positions 1 and 3 are s0 plus the +90-degree rotation of s1 and s0
plus the -90-degree rotation of s1 (each rotation a lane swap of s1 with
one lane negated), for t1's halves s0, s1. -/
theorem C7_bfly4_m1 {F : Type} (ops : FOps F) (f : Int → F × F) (n : Int) :
    ∀ i : Nat, (i:Int) < n →
      kf_bfly4_m1 ops f n (4*(i:Int))
        = cadd ops (cadd ops (f (4*(i:Int))) (f (4*(i:Int) + 2)))
                   (cadd ops (f (4*(i:Int) + 1)) (f (4*(i:Int) + 3))) ∧
      kf_bfly4_m1 ops f n (4*(i:Int) + 1)
        = cadd ops (csub ops (f (4*(i:Int))) (f (4*(i:Int) + 2)))
            ((csub ops (f (4*(i:Int) + 1)) (f (4*(i:Int) + 3))).2,
             ops.neg (csub ops (f (4*(i:Int) + 1)) (f (4*(i:Int) + 3))).1) ∧
      kf_bfly4_m1 ops f n (4*(i:Int) + 2)
        = csub ops (cadd ops (f (4*(i:Int))) (f (4*(i:Int) + 2)))
                   (cadd ops (f (4*(i:Int) + 1)) (f (4*(i:Int) + 3))) ∧
      kf_bfly4_m1 ops f n (4*(i:Int) + 3)
        = cadd ops (csub ops (f (4*(i:Int))) (f (4*(i:Int) + 2)))
            (ops.neg (csub ops (f (4*(i:Int) + 1)) (f (4*(i:Int) + 3))).2,
             (csub ops (f (4*(i:Int) + 1)) (f (4*(i:Int) + 3))).1) := by
  intro i hi
  have hiN : i < n.toNat := by omega
  have hstable : ∀ j : Int, 4*(i:Int) ≤ j → j < 4*(i:Int) + 4 →
      kf_bfly4_m1 ops f n j
        = bfly4m1Step ops (4*(i:Int))
            (iterF (fun k => bfly4m1Step ops (4*(k:Int))) i f) j := by
    intro j hj1 hj2
    unfold kf_bfly4_m1
    rw [iterF_stable _ n.toNat i f j hiN
        (fun k h1 h2 t => bfly4m1Step_frame ops (4*(k:Int)) t j (by omega)),
      iterF_succ]
  obtain ⟨e0, e1, e2, e3⟩ :=
    bfly4m1Step_at ops (4*(i:Int))
      (iterF (fun k => bfly4m1Step ops (4*(k:Int))) i f)
  have r0 := bfly4m1_reads ops f i (4*(i:Int)) (by omega) (by omega)
  have r1 := bfly4m1_reads ops f i (4*(i:Int) + 1) (by omega) (by omega)
  have r2 := bfly4m1_reads ops f i (4*(i:Int) + 2) (by omega) (by omega)
  have r3 := bfly4m1_reads ops f i (4*(i:Int) + 3) (by omega) (by omega)
  refine ⟨?_, ?_, ?_, ?_⟩
  · rw [hstable (4*(i:Int)) (by omega) (by omega), e0, r0, r1, r2, r3]
    rfl
  · rw [hstable (4*(i:Int) + 1) (by omega) (by omega), e1, r0, r1, r2, r3]
    rfl
  · rw [hstable (4*(i:Int) + 2) (by omega) (by omega), e2, r0, r1, r2, r3]
    rfl
  · rw [hstable (4*(i:Int) + 3) (by omega) (by omega), e3, r0, r1, r2, r3]
    rfl

/-- Witness for C7 at F = Q, n = 2, i = 1. -/
theorem C7_bfly4_m1_witness :
    ((1:Int) < 2) ∧
    kf_bfly4_m1 ratOps (fun j => ((j:ℚ), (j:ℚ) + 10)) 2 (4*((1:Nat):Int))
      = cadd ratOps
          (cadd ratOps ((fun j => ((j:ℚ), (j:ℚ) + 10)) (4*((1:Nat):Int)))
            ((fun j => ((j:ℚ), (j:ℚ) + 10)) (4*((1:Nat):Int) + 2)))
          (cadd ratOps ((fun j => ((j:ℚ), (j:ℚ) + 10)) (4*((1:Nat):Int) + 1))
            ((fun j => ((j:ℚ), (j:ℚ) + 10)) (4*((1:Nat):Int) + 3))) :=
  ⟨by norm_num, by
    have h := (C7_bfly4_m1 ratOps (fun j => ((j:ℚ), (j:ℚ) + 10)) 2 1 (by norm_num)).1
    norm_num at h ⊢
    exact h⟩

/-- Separation of group bases spaced mm apart: the next group base is at
least w cells beyond the current one whenever w <= mm. -/
theorem base_sep (mm w : Int) (i k : Nat) (h0 : 0 ≤ mm) (hw : w ≤ mm)
    (hik : i < k) : mm*(i:Int) + w ≤ mm*(k:Int) := by
  have h1 : ((i:Int) + 1) ≤ (k:Int) := by omega
  have h2 : mm*((i:Int)+1) ≤ mm*(k:Int) := mul_le_mul_of_nonneg_left h1 h0
  have h3 : mm*((i:Int)+1) = mm*(i:Int) + mm := by ring
  omega

/-- The pure combine of kf_bfly3_m1.c (lines 19-33) on one group of three
complex cells with twiddle imaginary part epi: scratch3 = c1+c2,
scratch0 = c1-c2, mid = c0 - scratch3*0.5f, scratch0 scaled by epi, the
sign-vector (1, -1) rotation of its lane swap, and the mid minus rot,
mid plus rot pair.
Returned in store order (fout[0], fout[1], fout[2]). -/
def bfly3Combine (epi : F) (c0 c1 c2 : F × F) :
    (F × F) × (F × F) × (F × F) :=
  let s3 := cadd ops c1 c2
  let s0 := csub ops c1 c2
  let f1a : F × F := (ops.sub c0.1 (ops.mul s3.1 ops.half),
                      ops.sub c0.2 (ops.mul s3.2 ops.half))
  let s0e : F × F := (ops.mul s0.1 epi, ops.mul s0.2 epi)
  let f0out := cadd ops c0 s3
  let rot : F × F := (ops.mul s0e.2 ops.one, ops.mul s0e.1 ops.negOne)
  (f0out, csub ops f1a rot, cadd ops f1a rot)

/-- Under the exact IEEE identities the radix-3 combine computes the
specification formulas: f0' = f0 + sum, f1' = mid - rot, f2' = mid + rot
with mid = f0 - 0.5*sum and rot = rotate90(diff) * epi. -/
theorem bfly3Combine_spec (L : FLaws ops) (epi : F) (c0 c1 c2 : F × F) :
    bfly3Combine ops epi c0 c1 c2
      = (cadd ops c0 (cadd ops c1 c2),
         csub ops (csub ops c0 (cscaleL ops ops.half (cadd ops c1 c2)))
                  (cscaleR ops (rot90 ops (csub ops c1 c2)) epi),
         cadd ops (csub ops c0 (cscaleL ops ops.half (cadd ops c1 c2)))
                  (cscaleR ops (rot90 ops (csub ops c1 c2)) epi)) := by
  simp only [bfly3Combine, cadd, csub, cscaleL, cscaleR, rot90]
  rw [L.mul_one, L.mul_negOne, L.neg_mul,
      L.mul_comm (ops.add c1.1 c2.1) ops.half,
      L.mul_comm (ops.add c1.2 c2.2) ops.half]

/-- One group iteration of kf_bfly3_m1 at complex base b. -/
def bfly3Step (epi : F) (b : Int) (f : Int → F × F) : Int → F × F :=
  let v := bfly3Combine ops epi (f b) (f (b + 1)) (f (b + 2))
  upd (upd (upd f b v.1) (b + 1) v.2.1) (b + 2) v.2.2

/-- kf_bfly3_m1: early return for n <= 0, then n groups of 3 complex cells
spaced mm cells apart, all using the fixed twiddle epi = tw[fstride].i. -/
def kf_bfly3_m1 (f tw : Int → F × F) (fstride n mm : Int) : Int → F × F :=
  if n ≤ 0 then f
  else iterF (fun i => bfly3Step ops ((tw fstride).2) (mm*(i:Int))) n.toNat f

theorem bfly3Step_frame (epi : F) (b : Int) (f : Int → F × F) (j : Int)
    (h : j < b ∨ b + 3 ≤ j) : bfly3Step ops epi b f j = f j := by
  simp only [bfly3Step, upd]
  rw [if_neg (by omega), if_neg (by omega), if_neg (by omega)]

theorem bfly3Step_at (epi : F) (b : Int) (f : Int → F × F) :
    bfly3Step ops epi b f b
        = (bfly3Combine ops epi (f b) (f (b + 1)) (f (b + 2))).1 ∧
    bfly3Step ops epi b f (b + 1)
        = (bfly3Combine ops epi (f b) (f (b + 1)) (f (b + 2))).2.1 ∧
    bfly3Step ops epi b f (b + 2)
        = (bfly3Combine ops epi (f b) (f (b + 1)) (f (b + 2))).2.2 := by
  refine ⟨?_, ?_, ?_⟩ <;>
    · simp only [bfly3Step, upd]
      split_ifs <;> first | rfl | omega

/-- C6: for every n >= 1 and each group of 3 complex samples based at
fout + i*mm, kf_bfly3_m1 with epi = tw[fstride].i replaces (f0, f1, f2) in
place by f0' = f0 + sum, f1' = mid - rot, f2' = mid + rot, where
sum = f1 + f2, diff = f1 - f2, mid = f0 - 0.5*sum and
rot = rotate90(diff) * epi with rotate90 the lane swap negating one lane --
with exactly this assignment of -rot to f1' and +rot to f2'. -/
theorem C6_bfly3_m1 {F : Type} (ops : FOps F) (L : FLaws ops)
    (f tw : Int → F × F) (fstride n mm : Int) (hmm : 3 ≤ mm) :
    ∀ i : Nat, (i:Int) < n →
      kf_bfly3_m1 ops f tw fstride n mm (mm*(i:Int))
        = cadd ops (f (mm*(i:Int)))
            (cadd ops (f (mm*(i:Int) + 1)) (f (mm*(i:Int) + 2))) ∧
      kf_bfly3_m1 ops f tw fstride n mm (mm*(i:Int) + 1)
        = csub ops
            (csub ops (f (mm*(i:Int)))
              (cscaleL ops ops.half (cadd ops (f (mm*(i:Int) + 1)) (f (mm*(i:Int) + 2)))))
            (cscaleR ops (rot90 ops (csub ops (f (mm*(i:Int) + 1)) (f (mm*(i:Int) + 2))))
              ((tw fstride).2)) ∧
      kf_bfly3_m1 ops f tw fstride n mm (mm*(i:Int) + 2)
        = cadd ops
            (csub ops (f (mm*(i:Int)))
              (cscaleL ops ops.half (cadd ops (f (mm*(i:Int) + 1)) (f (mm*(i:Int) + 2)))))
            (cscaleR ops (rot90 ops (csub ops (f (mm*(i:Int) + 1)) (f (mm*(i:Int) + 2))))
              ((tw fstride).2)) := by
  intro i hi
  have hiN : i < n.toNat := by omega
  unfold kf_bfly3_m1
  rw [if_neg (by omega)]
  have hstable : ∀ j : Int, mm*(i:Int) ≤ j → j < mm*(i:Int) + 3 →
      iterF (fun k => bfly3Step ops ((tw fstride).2) (mm*(k:Int))) n.toNat f j
        = bfly3Step ops ((tw fstride).2) (mm*(i:Int))
            (iterF (fun k => bfly3Step ops ((tw fstride).2) (mm*(k:Int))) i f) j := by
    intro j hj1 hj2
    rw [iterF_stable _ n.toNat i f j hiN
        (fun k h1 h2 t => bfly3Step_frame ops ((tw fstride).2) (mm*(k:Int)) t j
          (by have := base_sep mm 3 i k (by omega) hmm h1; omega)),
      iterF_succ]
  have hreads : ∀ j : Int, mm*(i:Int) ≤ j → j < mm*(i:Int) + 3 →
      iterF (fun k => bfly3Step ops ((tw fstride).2) (mm*(k:Int))) i f j = f j := by
    intro j hj1 hj2
    exact iterF_preserve _ i f j
      (fun k hk t => bfly3Step_frame ops ((tw fstride).2) (mm*(k:Int)) t j
        (by have := base_sep mm 3 k i (by omega) hmm hk; omega))
  obtain ⟨e0, e1, e2⟩ :=
    bfly3Step_at ops ((tw fstride).2) (mm*(i:Int))
      (iterF (fun k => bfly3Step ops ((tw fstride).2) (mm*(k:Int))) i f)
  have r0 := hreads (mm*(i:Int)) (by omega) (by omega)
  have r1 := hreads (mm*(i:Int) + 1) (by omega) (by omega)
  have r2 := hreads (mm*(i:Int) + 2) (by omega) (by omega)
  refine ⟨?_, ?_, ?_⟩
  · rw [hstable (mm*(i:Int)) (by omega) (by omega), e0, r0, r1, r2,
      bfly3Combine_spec ops L]
  · rw [hstable (mm*(i:Int) + 1) (by omega) (by omega), e1, r0, r1, r2,
      bfly3Combine_spec ops L]
  · rw [hstable (mm*(i:Int) + 2) (by omega) (by omega), e2, r0, r1, r2,
      bfly3Combine_spec ops L]

/-- Witness for C6 at F = Q, n = 2, mm = 3, fstride = 1, i = 0. -/
theorem C6_bfly3_m1_witness :
    ((3:Int) ≤ 3 ∧ (0:Int) < 2) ∧
    kf_bfly3_m1 ratOps (fun j => ((j:ℚ), 2*(j:ℚ))) (fun j => ((j:ℚ), (j:ℚ)+1)) 1 2 3
        (3*((0:Nat):Int))
      = cadd ratOps ((fun j => ((j:ℚ), 2*(j:ℚ))) (3*((0:Nat):Int)))
          (cadd ratOps ((fun j => ((j:ℚ), 2*(j:ℚ))) (3*((0:Nat):Int) + 1))
            ((fun j => ((j:ℚ), 2*(j:ℚ))) (3*((0:Nat):Int) + 2))) :=
  ⟨⟨by norm_num, by norm_num⟩, by
    have h := (C6_bfly3_m1 ratOps ratLaws (fun j => ((j:ℚ), 2*(j:ℚ)))
      (fun j => ((j:ℚ), (j:ℚ)+1)) 1 2 3 (by norm_num) 0 (by norm_num)).1
    norm_num at h ⊢
    exact h⟩

/-- The pure combine of kf_bfly5_m1.c (lines 24-62) on one group of five
complex cells, with ya = (yar, yai) = tw[fstride] and
yb = (ybr, ybi) = tw[2*fstride]: symmetric sums and differences
scratch7 = c1+c4, scratch10 = c1-c4, scratch8 = c2+c3, scratch9 = c2-c3;
vmla accumulations (modelled as multiply then add) for the two real-part
centers; lane-swapped, sign-vector-(1, -1) combinations of the differences
for the two rotation offsets (the second using vneg on the swapped
scratch10).  Returned in store order (fout[0], ..., fout[4]). -/
def bfly5Combine (yar ybr yai ybi : F) (c0 c1 c2 c3 c4 : F × F) :
    (F × F) × (F × F) × (F × F) × (F × F) × (F × F) :=
  let s7 := cadd ops c1 c4
  let s10 := csub ops c1 c4
  let s8 := cadd ops c2 c3
  let s9 := csub ops c2 c3
  let f0out := cadd ops c0 (cadd ops s7 s8)
  let s5 : F × F := (ops.add (ops.add (ops.mul s7.1 yar) (ops.mul s8.1 ybr)) c0.1,
                     ops.add (ops.add (ops.mul s7.2 yar) (ops.mul s8.2 ybr)) c0.2)
  let s6 : F × F := (ops.mul (ops.add (ops.mul s10.2 yai) (ops.mul s9.2 ybi)) ops.one,
                     ops.mul (ops.add (ops.mul s10.1 yai) (ops.mul s9.1 ybi)) ops.negOne)
  let s11 : F × F := (ops.add (ops.add (ops.mul s7.1 ybr) (ops.mul s8.1 yar)) c0.1,
                      ops.add (ops.add (ops.mul s7.2 ybr) (ops.mul s8.2 yar)) c0.2)
  let s12 : F × F := (ops.mul (ops.add (ops.mul s9.2 yai) (ops.mul (ops.neg s10.2) ybi)) ops.one,
                      ops.mul (ops.add (ops.mul s9.1 yai) (ops.mul (ops.neg s10.1) ybi)) ops.negOne)
  (f0out, csub ops s5 s6, cadd ops s11 s12, csub ops s11 s12, cadd ops s5 s6)

/-- Under the exact IEEE identities the radix-5 combine computes the
specification formulas: f0' = f0 + (s_a + s_b); f1'/f4' are the minus/plus pair
around f0 + (ya.r*s_a + yb.r*s_b) offset by the lane-swapped differences
weighted ya.i with d_a and yb.i with d_b; f2'/f3' are the plus/minus pair around
the complementary center f0 + (yb.r*s_a + ya.r*s_b) offset by the
complementary weighting with the fixed sign pattern. -/
theorem bfly5Combine_spec (L : FLaws ops) (yar ybr yai ybi : F)
    (c0 c1 c2 c3 c4 : F × F) :
    bfly5Combine ops yar ybr yai ybi c0 c1 c2 c3 c4
      = (cadd ops c0 (cadd ops (cadd ops c1 c4) (cadd ops c2 c3)),
         csub ops
           (ops.add c0.1 (ops.add (ops.mul yar (cadd ops c1 c4).1) (ops.mul ybr (cadd ops c2 c3).1)),
            ops.add c0.2 (ops.add (ops.mul yar (cadd ops c1 c4).2) (ops.mul ybr (cadd ops c2 c3).2)))
           (ops.add (ops.mul yai (csub ops c1 c4).2) (ops.mul ybi (csub ops c2 c3).2),
            ops.neg (ops.add (ops.mul yai (csub ops c1 c4).1) (ops.mul ybi (csub ops c2 c3).1))),
         cadd ops
           (ops.add c0.1 (ops.add (ops.mul ybr (cadd ops c1 c4).1) (ops.mul yar (cadd ops c2 c3).1)),
            ops.add c0.2 (ops.add (ops.mul ybr (cadd ops c1 c4).2) (ops.mul yar (cadd ops c2 c3).2)))
           (ops.sub (ops.mul yai (csub ops c2 c3).2) (ops.mul ybi (csub ops c1 c4).2),
            ops.neg (ops.sub (ops.mul yai (csub ops c2 c3).1) (ops.mul ybi (csub ops c1 c4).1))),
         csub ops
           (ops.add c0.1 (ops.add (ops.mul ybr (cadd ops c1 c4).1) (ops.mul yar (cadd ops c2 c3).1)),
            ops.add c0.2 (ops.add (ops.mul ybr (cadd ops c1 c4).2) (ops.mul yar (cadd ops c2 c3).2)))
           (ops.sub (ops.mul yai (csub ops c2 c3).2) (ops.mul ybi (csub ops c1 c4).2),
            ops.neg (ops.sub (ops.mul yai (csub ops c2 c3).1) (ops.mul ybi (csub ops c1 c4).1))),
         cadd ops
           (ops.add c0.1 (ops.add (ops.mul yar (cadd ops c1 c4).1) (ops.mul ybr (cadd ops c2 c3).1)),
            ops.add c0.2 (ops.add (ops.mul yar (cadd ops c1 c4).2) (ops.mul ybr (cadd ops c2 c3).2)))
           (ops.add (ops.mul yai (csub ops c1 c4).2) (ops.mul ybi (csub ops c2 c3).2),
            ops.neg (ops.add (ops.mul yai (csub ops c1 c4).1) (ops.mul ybi (csub ops c2 c3).1)))) := by
  simp only [bfly5Combine, cadd, csub]
  simp only [L.mul_one, L.mul_negOne, ← L.neg_mul, L.add_neg]
  simp only [L.mul_comm, L.add_comm]

/-- One group iteration of kf_bfly5_m1 at complex base b. -/
def bfly5Step (yar ybr yai ybi : F) (b : Int) (f : Int → F × F) : Int → F × F :=
  let v := bfly5Combine ops yar ybr yai ybi (f b) (f (b + 1)) (f (b + 2))
    (f (b + 3)) (f (b + 4))
  upd (upd (upd (upd (upd f b v.1) (b + 1) v.2.1) (b + 2) v.2.2.1)
    (b + 3) v.2.2.2.1) (b + 4) v.2.2.2.2

/-- kf_bfly5_m1: early return for n <= 0, then n groups of 5 complex cells
spaced mm cells apart, with ya = tw[fstride] and yb = tw[2*fstride] hoisted
before the loop. -/
def kf_bfly5_m1 (f tw : Int → F × F) (fstride n mm : Int) : Int → F × F :=
  if n ≤ 0 then f
  else iterF (fun i => bfly5Step ops (tw fstride).1 (tw (2*fstride)).1
    (tw fstride).2 (tw (2*fstride)).2 (mm*(i:Int))) n.toNat f

theorem bfly5Step_frame (yar ybr yai ybi : F) (b : Int) (f : Int → F × F)
    (j : Int) (h : j < b ∨ b + 5 ≤ j) :
    bfly5Step ops yar ybr yai ybi b f j = f j := by
  simp only [bfly5Step, upd]
  rw [if_neg (by omega), if_neg (by omega), if_neg (by omega),
    if_neg (by omega), if_neg (by omega)]

theorem bfly5Step_at (yar ybr yai ybi : F) (b : Int) (f : Int → F × F) :
    bfly5Step ops yar ybr yai ybi b f b
        = (bfly5Combine ops yar ybr yai ybi (f b) (f (b + 1)) (f (b + 2))
            (f (b + 3)) (f (b + 4))).1 ∧
    bfly5Step ops yar ybr yai ybi b f (b + 1)
        = (bfly5Combine ops yar ybr yai ybi (f b) (f (b + 1)) (f (b + 2))
            (f (b + 3)) (f (b + 4))).2.1 ∧
    bfly5Step ops yar ybr yai ybi b f (b + 2)
        = (bfly5Combine ops yar ybr yai ybi (f b) (f (b + 1)) (f (b + 2))
            (f (b + 3)) (f (b + 4))).2.2.1 ∧
    bfly5Step ops yar ybr yai ybi b f (b + 3)
        = (bfly5Combine ops yar ybr yai ybi (f b) (f (b + 1)) (f (b + 2))
            (f (b + 3)) (f (b + 4))).2.2.2.1 ∧
    bfly5Step ops yar ybr yai ybi b f (b + 4)
        = (bfly5Combine ops yar ybr yai ybi (f b) (f (b + 1)) (f (b + 2))
            (f (b + 3)) (f (b + 4))).2.2.2.2 := by
  refine ⟨?_, ?_, ?_, ?_, ?_⟩ <;>
    · simp only [bfly5Step, upd]
      split_ifs <;> first | rfl | omega

/-- C8: for every n >= 1 and each group of 5 complex samples based at
fout + i*mm, kf_bfly5_m1 with ya = tw[fstride] and yb = tw[2*fstride]
computes s_a = f1+f4, d_a = f1-f4, s_b = f2+f3, d_b = f2-f3, writes
f0' = f0 + (s_a + s_b), produces f1'/f4' as the minus/plus pair around
f0 + (ya.r*s_a + yb.r*s_b) (ya paired with the near sum s_a) and f2'/f3'
as the plus/minus pair around f0 + (yb.r*s_a + ya.r*s_b) (the complementary
pairing), each offset by the lane-swapped combination of d_a and d_b
weighted by ya.i and yb.i with the fixed sign pattern. -/
theorem C8_bfly5_m1 {F : Type} (ops : FOps F) (L : FLaws ops)
    (f tw : Int → F × F) (fstride n mm : Int) (hmm : 5 ≤ mm) :
    ∀ i : Nat, (i:Int) < n →
      kf_bfly5_m1 ops f tw fstride n mm (mm*(i:Int))
        = cadd ops (f (mm*(i:Int)))
            (cadd ops (cadd ops (f (mm*(i:Int) + 1)) (f (mm*(i:Int) + 4)))
                      (cadd ops (f (mm*(i:Int) + 2)) (f (mm*(i:Int) + 3)))) ∧
      kf_bfly5_m1 ops f tw fstride n mm (mm*(i:Int) + 1)
        = csub ops
            (ops.add (f (mm*(i:Int))).1
              (ops.add (ops.mul (tw fstride).1 (cadd ops (f (mm*(i:Int) + 1)) (f (mm*(i:Int) + 4))).1)
                       (ops.mul (tw (2*fstride)).1 (cadd ops (f (mm*(i:Int) + 2)) (f (mm*(i:Int) + 3))).1)),
             ops.add (f (mm*(i:Int))).2
              (ops.add (ops.mul (tw fstride).1 (cadd ops (f (mm*(i:Int) + 1)) (f (mm*(i:Int) + 4))).2)
                       (ops.mul (tw (2*fstride)).1 (cadd ops (f (mm*(i:Int) + 2)) (f (mm*(i:Int) + 3))).2)))
            (ops.add (ops.mul (tw fstride).2 (csub ops (f (mm*(i:Int) + 1)) (f (mm*(i:Int) + 4))).2)
                     (ops.mul (tw (2*fstride)).2 (csub ops (f (mm*(i:Int) + 2)) (f (mm*(i:Int) + 3))).2),
             ops.neg (ops.add (ops.mul (tw fstride).2 (csub ops (f (mm*(i:Int) + 1)) (f (mm*(i:Int) + 4))).1)
                              (ops.mul (tw (2*fstride)).2 (csub ops (f (mm*(i:Int) + 2)) (f (mm*(i:Int) + 3))).1))) ∧
      kf_bfly5_m1 ops f tw fstride n mm (mm*(i:Int) + 2)
        = cadd ops
            (ops.add (f (mm*(i:Int))).1
              (ops.add (ops.mul (tw (2*fstride)).1 (cadd ops (f (mm*(i:Int) + 1)) (f (mm*(i:Int) + 4))).1)
                       (ops.mul (tw fstride).1 (cadd ops (f (mm*(i:Int) + 2)) (f (mm*(i:Int) + 3))).1)),
             ops.add (f (mm*(i:Int))).2
              (ops.add (ops.mul (tw (2*fstride)).1 (cadd ops (f (mm*(i:Int) + 1)) (f (mm*(i:Int) + 4))).2)
                       (ops.mul (tw fstride).1 (cadd ops (f (mm*(i:Int) + 2)) (f (mm*(i:Int) + 3))).2)))
            (ops.sub (ops.mul (tw fstride).2 (csub ops (f (mm*(i:Int) + 2)) (f (mm*(i:Int) + 3))).2)
                     (ops.mul (tw (2*fstride)).2 (csub ops (f (mm*(i:Int) + 1)) (f (mm*(i:Int) + 4))).2),
             ops.neg (ops.sub (ops.mul (tw fstride).2 (csub ops (f (mm*(i:Int) + 2)) (f (mm*(i:Int) + 3))).1)
                              (ops.mul (tw (2*fstride)).2 (csub ops (f (mm*(i:Int) + 1)) (f (mm*(i:Int) + 4))).1))) ∧
      kf_bfly5_m1 ops f tw fstride n mm (mm*(i:Int) + 3)
        = csub ops
            (ops.add (f (mm*(i:Int))).1
              (ops.add (ops.mul (tw (2*fstride)).1 (cadd ops (f (mm*(i:Int) + 1)) (f (mm*(i:Int) + 4))).1)
                       (ops.mul (tw fstride).1 (cadd ops (f (mm*(i:Int) + 2)) (f (mm*(i:Int) + 3))).1)),
             ops.add (f (mm*(i:Int))).2
              (ops.add (ops.mul (tw (2*fstride)).1 (cadd ops (f (mm*(i:Int) + 1)) (f (mm*(i:Int) + 4))).2)
                       (ops.mul (tw fstride).1 (cadd ops (f (mm*(i:Int) + 2)) (f (mm*(i:Int) + 3))).2)))
            (ops.sub (ops.mul (tw fstride).2 (csub ops (f (mm*(i:Int) + 2)) (f (mm*(i:Int) + 3))).2)
                     (ops.mul (tw (2*fstride)).2 (csub ops (f (mm*(i:Int) + 1)) (f (mm*(i:Int) + 4))).2),
             ops.neg (ops.sub (ops.mul (tw fstride).2 (csub ops (f (mm*(i:Int) + 2)) (f (mm*(i:Int) + 3))).1)
                              (ops.mul (tw (2*fstride)).2 (csub ops (f (mm*(i:Int) + 1)) (f (mm*(i:Int) + 4))).1))) ∧
      kf_bfly5_m1 ops f tw fstride n mm (mm*(i:Int) + 4)
        = cadd ops
            (ops.add (f (mm*(i:Int))).1
              (ops.add (ops.mul (tw fstride).1 (cadd ops (f (mm*(i:Int) + 1)) (f (mm*(i:Int) + 4))).1)
                       (ops.mul (tw (2*fstride)).1 (cadd ops (f (mm*(i:Int) + 2)) (f (mm*(i:Int) + 3))).1)),
             ops.add (f (mm*(i:Int))).2
              (ops.add (ops.mul (tw fstride).1 (cadd ops (f (mm*(i:Int) + 1)) (f (mm*(i:Int) + 4))).2)
                       (ops.mul (tw (2*fstride)).1 (cadd ops (f (mm*(i:Int) + 2)) (f (mm*(i:Int) + 3))).2)))
            (ops.add (ops.mul (tw fstride).2 (csub ops (f (mm*(i:Int) + 1)) (f (mm*(i:Int) + 4))).2)
                     (ops.mul (tw (2*fstride)).2 (csub ops (f (mm*(i:Int) + 2)) (f (mm*(i:Int) + 3))).2),
             ops.neg (ops.add (ops.mul (tw fstride).2 (csub ops (f (mm*(i:Int) + 1)) (f (mm*(i:Int) + 4))).1)
                              (ops.mul (tw (2*fstride)).2 (csub ops (f (mm*(i:Int) + 2)) (f (mm*(i:Int) + 3))).1))) := by
  intro i hi
  have hiN : i < n.toNat := by omega
  unfold kf_bfly5_m1
  rw [if_neg (by omega)]
  have hstable : ∀ j : Int, mm*(i:Int) ≤ j → j < mm*(i:Int) + 5 →
      iterF (fun k => bfly5Step ops (tw fstride).1 (tw (2*fstride)).1
          (tw fstride).2 (tw (2*fstride)).2 (mm*(k:Int))) n.toNat f j
        = bfly5Step ops (tw fstride).1 (tw (2*fstride)).1
            (tw fstride).2 (tw (2*fstride)).2 (mm*(i:Int))
            (iterF (fun k => bfly5Step ops (tw fstride).1 (tw (2*fstride)).1
              (tw fstride).2 (tw (2*fstride)).2 (mm*(k:Int))) i f) j := by
    intro j hj1 hj2
    rw [iterF_stable _ n.toNat i f j hiN
        (fun k h1 h2 t => bfly5Step_frame ops _ _ _ _ (mm*(k:Int)) t j
          (by have := base_sep mm 5 i k (by omega) hmm h1; omega)),
      iterF_succ]
  have hreads : ∀ j : Int, mm*(i:Int) ≤ j → j < mm*(i:Int) + 5 →
      iterF (fun k => bfly5Step ops (tw fstride).1 (tw (2*fstride)).1
          (tw fstride).2 (tw (2*fstride)).2 (mm*(k:Int))) i f j = f j := by
    intro j hj1 hj2
    exact iterF_preserve _ i f j
      (fun k hk t => bfly5Step_frame ops _ _ _ _ (mm*(k:Int)) t j
        (by have := base_sep mm 5 k i (by omega) hmm hk; omega))
  obtain ⟨e0, e1, e2, e3, e4⟩ :=
    bfly5Step_at ops (tw fstride).1 (tw (2*fstride)).1
      (tw fstride).2 (tw (2*fstride)).2 (mm*(i:Int))
      (iterF (fun k => bfly5Step ops (tw fstride).1 (tw (2*fstride)).1
        (tw fstride).2 (tw (2*fstride)).2 (mm*(k:Int))) i f)
  have r0 := hreads (mm*(i:Int)) (by omega) (by omega)
  have r1 := hreads (mm*(i:Int) + 1) (by omega) (by omega)
  have r2 := hreads (mm*(i:Int) + 2) (by omega) (by omega)
  have r3 := hreads (mm*(i:Int) + 3) (by omega) (by omega)
  have r4 := hreads (mm*(i:Int) + 4) (by omega) (by omega)
  refine ⟨?_, ?_, ?_, ?_, ?_⟩
  · rw [hstable (mm*(i:Int)) (by omega) (by omega), e0, r0, r1, r2, r3, r4,
      bfly5Combine_spec ops L]
  · rw [hstable (mm*(i:Int) + 1) (by omega) (by omega), e1, r0, r1, r2, r3, r4,
      bfly5Combine_spec ops L]
  · rw [hstable (mm*(i:Int) + 2) (by omega) (by omega), e2, r0, r1, r2, r3, r4,
      bfly5Combine_spec ops L]
  · rw [hstable (mm*(i:Int) + 3) (by omega) (by omega), e3, r0, r1, r2, r3, r4,
      bfly5Combine_spec ops L]
  · rw [hstable (mm*(i:Int) + 4) (by omega) (by omega), e4, r0, r1, r2, r3, r4,
      bfly5Combine_spec ops L]

/-- Witness for C8 at F = Q, n = 1, mm = 5, fstride = 1, i = 0. -/
theorem C8_bfly5_m1_witness :
    ((5:Int) ≤ 5 ∧ (0:Int) < 1) ∧
    kf_bfly5_m1 ratOps (fun j => ((j:ℚ), 3*(j:ℚ))) (fun j => ((j:ℚ)+2, (j:ℚ)-1)) 1 1 5
        (5*((0:Nat):Int))
      = cadd ratOps ((fun j => ((j:ℚ), 3*(j:ℚ))) (5*((0:Nat):Int)))
          (cadd ratOps
            (cadd ratOps ((fun j => ((j:ℚ), 3*(j:ℚ))) (5*((0:Nat):Int) + 1))
              ((fun j => ((j:ℚ), 3*(j:ℚ))) (5*((0:Nat):Int) + 4)))
            (cadd ratOps ((fun j => ((j:ℚ), 3*(j:ℚ))) (5*((0:Nat):Int) + 2))
              ((fun j => ((j:ℚ), 3*(j:ℚ))) (5*((0:Nat):Int) + 3)))) :=
  ⟨⟨by norm_num, by norm_num⟩, by
    have h := (C8_bfly5_m1 ratOps ratLaws (fun j => ((j:ℚ), 3*(j:ℚ)))
      (fun j => ((j:ℚ)+2, (j:ℚ)-1)) 1 1 5 (by norm_num) 0 (by norm_num)).1
    norm_num at h ⊢
    exact h⟩

/-- The pure per-position combine of kf_bfly4_mx.c (general path body,
lines 135-160; identical trees in the fast path lanes): twiddle-multiply
samples 1, 2, 3 with cmul, then the radix-4 sum/difference structure with
the sign-vector (-1, 1) rotation of scratch4's lane swap.  Returned in
store order (f[0], f[m], f[2m], f[3m]). -/
def mxCombine (t1 t2 t3 : F × F) (c0 c1 c2 c3 : F × F) :
    (F × F) × (F × F) × (F × F) × (F × F) :=
  let s0 := cmul ops c1 t1
  let s1 := cmul ops c2 t2
  let s2 := cmul ops c3 t3
  let s5 := csub ops c0 s1
  let f0a := cadd ops c0 s1
  let s3 := cadd ops s0 s2
  let s4 := csub ops s0 s2
  let f2out := csub ops f0a s3
  let f0out := cadd ops f0a s3
  let s4i : F × F := (ops.mul s4.2 ops.negOne, ops.mul s4.1 ops.one)
  (f0out, csub ops s5 s4i, f2out, cadd ops s5 s4i)

/-- Under the exact IEEE identities, the general-multiplicity combine is
the m=1 radix-4 butterfly structure applied to the raw sample 0 and the
three specification-formula twiddle products. -/
theorem mxCombine_spec (L : FLaws ops) (t1 t2 t3 c0 c1 c2 c3 : F × F) :
    mxCombine ops t1 t2 t3 c0 c1 c2 c3
      = bfly4Combine ops c0 (cmulSpec ops c1 t1) (cmulSpec ops c2 t2)
          (cmulSpec ops c3 t3) := by
  simp only [mxCombine, bfly4Combine, cadd, csub]
  rw [cmul_eq_spec ops L c1 t1, cmul_eq_spec ops L c2 t2, cmul_eq_spec ops L c3 t3]
  simp only [L.mul_one, L.mul_negOne, L.add_neg, L.sub_neg]

/-- The four reads and combine of one general-path position j of
kf_bfly4_mx, with twiddle counters tw1 = j*fstride, tw2 = j*2*fstride,
tw3 = j*3*fstride as accumulated by the source loop. -/
def mxRead (tw : Int → F × F) (m fstride b : Int) (j : Nat) (f : Int → F × F) :
    (F × F) × (F × F) × (F × F) × (F × F) :=
  mxCombine ops (tw ((j:Int)*fstride)) (tw (2*((j:Int)*fstride)))
    (tw (3*((j:Int)*fstride)))
    (f (b + (j:Int))) (f (b + (j:Int) + m)) (f (b + (j:Int) + 2*m))
    (f (b + (j:Int) + 3*m))

/-- The four stores of one general-path position j of kf_bfly4_mx, in
source order f[j], f[j+m], f[j+2m], f[j+3m]. -/
def mxWrite (m b : Int) (j : Nat) (f : Int → F × F)
    (v : (F × F) × (F × F) × (F × F) × (F × F)) : Int → F × F :=
  upd (upd (upd (upd f (b + (j:Int)) v.1) (b + (j:Int) + m) v.2.1)
    (b + (j:Int) + 2*m) v.2.2.1) (b + (j:Int) + 3*m) v.2.2.2

/-- One general-path position of kf_bfly4_mx: all reads before all
writes. -/
def mxStep (tw : Int → F × F) (m fstride b : Int) (j : Nat)
    (f : Int → F × F) : Int → F × F :=
  mxWrite m b j f (mxRead ops tw m fstride b j f)

/-- One fast-path pair iteration of kf_bfly4_mx (source lines 46-86),
written lane by lane for positions j (lane pair 0) and j+1 (lane pair 1),
with contiguous twiddle loads tw[j], tw[j+1]; tw[2j], tw[2j+2];
tw[3j], tw[3j+3]: both 2-cell loads per sample happen before the four
2-cell stores, stored in source order f[0], f[m], f[2m], f[3m]. -/
def mxPair (tw : Int → F × F) (m b : Int) (j : Nat)
    (f : Int → F × F) : Int → F × F :=
  let va := mxCombine ops (tw (j:Int)) (tw (2*(j:Int))) (tw (3*(j:Int)))
    (f (b + (j:Int))) (f (b + (j:Int) + m)) (f (b + (j:Int) + 2*m))
    (f (b + (j:Int) + 3*m))
  let vb := mxCombine ops (tw ((j:Int) + 1)) (tw (2*(j:Int) + 2)) (tw (3*(j:Int) + 3))
    (f (b + (j:Int) + 1)) (f (b + (j:Int) + m + 1)) (f (b + (j:Int) + 2*m + 1))
    (f (b + (j:Int) + 3*m + 1))
  upd (upd (upd (upd (upd (upd (upd (upd f
    (b + (j:Int)) va.1) (b + (j:Int) + 1) vb.1)
    (b + (j:Int) + m) va.2.1) (b + (j:Int) + m + 1) vb.2.1)
    (b + (j:Int) + 2*m) va.2.2.1) (b + (j:Int) + 2*m + 1) vb.2.2.1)
    (b + (j:Int) + 3*m) va.2.2.2) (b + (j:Int) + 3*m + 1) vb.2.2.2

theorem mxWrite_other (m b : Int) (j : Nat) (f : Int → F × F)
    (v : (F × F) × (F × F) × (F × F) × (F × F)) (q : Int)
    (h1 : q ≠ b + (j:Int)) (h2 : q ≠ b + (j:Int) + m)
    (h3 : q ≠ b + (j:Int) + 2*m) (h4 : q ≠ b + (j:Int) + 3*m) :
    mxWrite m b j f v q = f q := by
  simp only [mxWrite, upd]
  rw [if_neg h4, if_neg h3, if_neg h2, if_neg h1]

theorem mxStep_frame (tw : Int → F × F) (m fstride b : Int) (j : Nat)
    (f : Int → F × F) (q : Int)
    (h1 : q ≠ b + (j:Int)) (h2 : q ≠ b + (j:Int) + m)
    (h3 : q ≠ b + (j:Int) + 2*m) (h4 : q ≠ b + (j:Int) + 3*m) :
    mxStep ops tw m fstride b j f q = f q :=
  mxWrite_other m b j f _ q h1 h2 h3 h4

theorem mxStep_at (tw : Int → F × F) (m fstride b : Int) (j : Nat)
    (f : Int → F × F) (hm : 1 ≤ m) :
    mxStep ops tw m fstride b j f (b + (j:Int))
        = (mxRead ops tw m fstride b j f).1 ∧
    mxStep ops tw m fstride b j f (b + (j:Int) + m)
        = (mxRead ops tw m fstride b j f).2.1 ∧
    mxStep ops tw m fstride b j f (b + (j:Int) + 2*m)
        = (mxRead ops tw m fstride b j f).2.2.1 ∧
    mxStep ops tw m fstride b j f (b + (j:Int) + 3*m)
        = (mxRead ops tw m fstride b j f).2.2.2 := by
  refine ⟨?_, ?_, ?_, ?_⟩ <;>
    · simp only [mxStep, mxWrite, upd]
      split_ifs <;> first | rfl | omega

/-- The reads of fast-path position j+1 are untouched by the writes of
position j (the pair loop only runs with j+1 < m). -/
theorem mxRead_untouched (tw : Int → F × F) (m b : Int) (j : Nat)
    (f : Int → F × F) (v : (F × F) × (F × F) × (F × F) × (F × F))
    (hj : (j:Int) + 1 < m) :
    mxRead ops tw m 1 b (j+1) (mxWrite m b j f v)
      = mxRead ops tw m 1 b (j+1) f := by
  unfold mxRead
  rw [mxWrite_other m b j f v (b + ((j+1 : Nat):Int))
        (by omega) (by omega) (by omega) (by omega),
      mxWrite_other m b j f v (b + ((j+1 : Nat):Int) + m)
        (by omega) (by omega) (by omega) (by omega),
      mxWrite_other m b j f v (b + ((j+1 : Nat):Int) + 2*m)
        (by omega) (by omega) (by omega) (by omega),
      mxWrite_other m b j f v (b + ((j+1 : Nat):Int) + 3*m)
        (by omega) (by omega) (by omega) (by omega)]

set_option maxHeartbeats 2000000 in
/-- One fast-path pair iteration of kf_bfly4_mx performs exactly the two
scalar general-path iterations it covers, at fstride = 1. -/
theorem mxPair_eq_two (tw : Int → F × F) (m b : Int) (j : Nat)
    (f : Int → F × F) (hj : (j:Int) + 1 < m) :
    mxPair ops tw m b j f
      = mxStep ops tw m 1 b (j+1) (mxStep ops tw m 1 b j f) := by
  unfold mxStep
  rw [mxRead_untouched ops tw m b j f _ hj]
  funext q
  simp only [mxPair, mxWrite, mxRead, upd]
  push_cast
  split_ifs <;> first | rfl | omega | ring_nf

/-- One whole group of the general path of kf_bfly4_mx at complex base b:
m positions, twiddle counters advancing by fstride, 2*fstride,
3*fstride. -/
def mxGroupGen (tw : Int → F × F) (m fstride b : Int)
    (buf : Int → F × F) : Int → F × F :=
  iterF (fun j => mxStep ops tw m fstride b j) m.toNat buf

/-- One whole group of the fstride = 1 fast path of kf_bfly4_mx: the
vectorized pair loop (trip count m/2) followed by the scalar remainder
continuing at position 2*(m/2). -/
def mxGroupFast (tw : Int → F × F) (m b : Int)
    (buf : Int → F × F) : Int → F × F :=
  iterF (fun k => mxStep ops tw m 1 b (2*(m.toNat/2) + k))
    (m.toNat - 2*(m.toNat/2))
    (iterF (fun k => mxPair ops tw m b (2*k)) (m.toNat/2) buf)

/-- The general-stride path of kf_bfly4_mx (source lines 129-172): n
groups based at fout + i*mm. -/
def kf_bfly4_mx_general (f tw : Int → F × F) (m n fstride mm : Int) :
    Int → F × F :=
  iterF (fun i => mxGroupGen ops tw m fstride (mm*(i:Int))) n.toNat f

/-- The fstride = 1 fast path of kf_bfly4_mx (source lines 38-127). -/
def kf_bfly4_mx_fast (f tw : Int → F × F) (m n mm : Int) : Int → F × F :=
  iterF (fun i => mxGroupFast ops tw m (mm*(i:Int))) n.toNat f

/-- kf_bfly4_mx: the fast path is selected exactly when fstride == 1. -/
def kf_bfly4_mx (f tw : Int → F × F) (m n fstride mm : Int) : Int → F × F :=
  if fstride = 1 then kf_bfly4_mx_fast ops f tw m n mm
  else kf_bfly4_mx_general ops f tw m n fstride mm

/-- Group by group, the fast path equals the general path run at
fstride = 1. -/
theorem mxGroupFast_eq_gen (tw : Int → F × F) (m b : Int)
    (buf : Int → F × F) :
    mxGroupFast ops tw m b buf = mxGroupGen ops tw m 1 b buf := by
  unfold mxGroupFast mxGroupGen
  rw [iterF_pair (fun k => mxPair ops tw m b (2*k))
      (fun j => mxStep ops tw m 1 b j) (m.toNat/2) buf
      (fun k hk t => mxPair_eq_two ops tw m b (2*k) t (by omega)),
    iterF_shift]
  congr 1
  omega

/-- C5: for identical inputs, the fstride == 1 fast path of kf_bfly4_mx
(vectorized pair loop plus scalar remainder) and the general-stride path
executed with fstride = 1 produce identical output buffers; kf_bfly4_mx
itself dispatches to the fast path at fstride = 1. -/
theorem C5_fast_eq_general {F : Type} (ops : FOps F) (f tw : Int → F × F)
    (m n mm : Int) :
    kf_bfly4_mx ops f tw m n 1 mm = kf_bfly4_mx_general ops f tw m n 1 mm ∧
    kf_bfly4_mx_fast ops f tw m n mm = kf_bfly4_mx_general ops f tw m n 1 mm := by
  have h : kf_bfly4_mx_fast ops f tw m n mm
      = kf_bfly4_mx_general ops f tw m n 1 mm := by
    unfold kf_bfly4_mx_fast kf_bfly4_mx_general
    exact iterF_congr _ _ n.toNat f
      (fun k hk t => mxGroupFast_eq_gen ops tw m (mm*(k:Int)) t)
  refine ⟨?_, h⟩
  unfold kf_bfly4_mx
  rw [if_pos rfl]
  exact h

theorem mxGroupGen_frame (tw : Int → F × F) (m fstride b : Int)
    (buf : Int → F × F) (q : Int) (h : q < b ∨ b + 4*m ≤ q) :
    mxGroupGen ops tw m fstride b buf q = buf q := by
  unfold mxGroupGen
  exact iterF_preserve _ m.toNat buf q
    (fun j hj t => mxStep_frame ops tw m fstride b j t q
      (by omega) (by omega) (by omega) (by omega))

/-- Within one general-path group, position j's four cells end up holding
the combine of their original values: later positions never touch them and
earlier positions never touched them. -/
theorem mxGroupGen_at (tw : Int → F × F) (m fstride b : Int)
    (buf : Int → F × F) (j : Nat) (hj : (j:Int) < m) :
    mxGroupGen ops tw m fstride b buf (b + (j:Int))
        = (mxRead ops tw m fstride b j buf).1 ∧
    mxGroupGen ops tw m fstride b buf (b + (j:Int) + m)
        = (mxRead ops tw m fstride b j buf).2.1 ∧
    mxGroupGen ops tw m fstride b buf (b + (j:Int) + 2*m)
        = (mxRead ops tw m fstride b j buf).2.2.1 ∧
    mxGroupGen ops tw m fstride b buf (b + (j:Int) + 3*m)
        = (mxRead ops tw m fstride b j buf).2.2.2 := by
  have hjN : j < m.toNat := by omega
  have hm : (1:Int) ≤ m := by omega
  have hstable : ∀ q : Int,
      (q = b + (j:Int) ∨ q = b + (j:Int) + m ∨ q = b + (j:Int) + 2*m ∨
        q = b + (j:Int) + 3*m) →
      mxGroupGen ops tw m fstride b buf q
        = mxStep ops tw m fstride b j
            (iterF (fun k => mxStep ops tw m fstride b k) j buf) q := by
    intro q hq
    unfold mxGroupGen
    rw [iterF_stable _ m.toNat j buf q hjN
        (fun k h1 h2 t => mxStep_frame ops tw m fstride b k t q
          (by omega) (by omega) (by omega) (by omega)),
      iterF_succ]
  have hreads : ∀ q : Int,
      (q = b + (j:Int) ∨ q = b + (j:Int) + m ∨ q = b + (j:Int) + 2*m ∨
        q = b + (j:Int) + 3*m) →
      iterF (fun k => mxStep ops tw m fstride b k) j buf q = buf q := by
    intro q hq
    exact iterF_preserve _ j buf q
      (fun k hk t => mxStep_frame ops tw m fstride b k t q
        (by omega) (by omega) (by omega) (by omega))
  have hcongr : mxRead ops tw m fstride b j
      (iterF (fun k => mxStep ops tw m fstride b k) j buf)
        = mxRead ops tw m fstride b j buf := by
    unfold mxRead
    rw [hreads (b + (j:Int)) (by omega),
      hreads (b + (j:Int) + m) (by omega),
      hreads (b + (j:Int) + 2*m) (by omega),
      hreads (b + (j:Int) + 3*m) (by omega)]
  obtain ⟨e0, e1, e2, e3⟩ :=
    mxStep_at ops tw m fstride b j
      (iterF (fun k => mxStep ops tw m fstride b k) j buf) hm
  exact ⟨by rw [hstable _ (by omega), e0, hcongr],
         by rw [hstable _ (by omega), e1, hcongr],
         by rw [hstable _ (by omega), e2, hcongr],
         by rw [hstable _ (by omega), e3, hcongr]⟩

/-- C4: for every n >= 1, m >= 1 and any fstride, kf_bfly4_mx transforms,
at each of the m positions j of every group (group i based at
fout + i*mm, sub-arrays spaced m apart), the four samples f[j], f[j+m],
f[j+2m], f[j+3m] by first complex-multiplying samples 1, 2, 3 with their
twiddle factors at indices j*fstride, j*2*fstride, j*3*fstride using the
formula (a.re*b.re - a.im*b.im, a.re*b.im + a.im*b.re), then combining
the three products with f[j] via the radix-4 sum/difference/rotation
structure of the m=1 butterfly (bfly4Combine).  The spacing hypothesis
4*m <= mm is the caller non-aliasing contract on groups. -/
theorem C4_bfly4_mx {F : Type} (ops : FOps F) (L : FLaws ops)
    (f tw : Int → F × F) (m n fstride mm : Int)
    (hm : 1 ≤ m) (h4m : 4*m ≤ mm) :
    ∀ (i j : Nat), (i:Int) < n → (j:Int) < m →
      kf_bfly4_mx ops f tw m n fstride mm (mm*(i:Int) + (j:Int))
        = (bfly4Combine ops (f (mm*(i:Int) + (j:Int)))
            (cmulSpec ops (f (mm*(i:Int) + (j:Int) + m)) (tw ((j:Int)*fstride)))
            (cmulSpec ops (f (mm*(i:Int) + (j:Int) + 2*m)) (tw (2*((j:Int)*fstride))))
            (cmulSpec ops (f (mm*(i:Int) + (j:Int) + 3*m)) (tw (3*((j:Int)*fstride))))).1 ∧
      kf_bfly4_mx ops f tw m n fstride mm (mm*(i:Int) + (j:Int) + m)
        = (bfly4Combine ops (f (mm*(i:Int) + (j:Int)))
            (cmulSpec ops (f (mm*(i:Int) + (j:Int) + m)) (tw ((j:Int)*fstride)))
            (cmulSpec ops (f (mm*(i:Int) + (j:Int) + 2*m)) (tw (2*((j:Int)*fstride))))
            (cmulSpec ops (f (mm*(i:Int) + (j:Int) + 3*m)) (tw (3*((j:Int)*fstride))))).2.1 ∧
      kf_bfly4_mx ops f tw m n fstride mm (mm*(i:Int) + (j:Int) + 2*m)
        = (bfly4Combine ops (f (mm*(i:Int) + (j:Int)))
            (cmulSpec ops (f (mm*(i:Int) + (j:Int) + m)) (tw ((j:Int)*fstride)))
            (cmulSpec ops (f (mm*(i:Int) + (j:Int) + 2*m)) (tw (2*((j:Int)*fstride))))
            (cmulSpec ops (f (mm*(i:Int) + (j:Int) + 3*m)) (tw (3*((j:Int)*fstride))))).2.2.1 ∧
      kf_bfly4_mx ops f tw m n fstride mm (mm*(i:Int) + (j:Int) + 3*m)
        = (bfly4Combine ops (f (mm*(i:Int) + (j:Int)))
            (cmulSpec ops (f (mm*(i:Int) + (j:Int) + m)) (tw ((j:Int)*fstride)))
            (cmulSpec ops (f (mm*(i:Int) + (j:Int) + 2*m)) (tw (2*((j:Int)*fstride))))
            (cmulSpec ops (f (mm*(i:Int) + (j:Int) + 3*m)) (tw (3*((j:Int)*fstride))))).2.2.2 := by
  intro i j hi hj
  have hpath : kf_bfly4_mx ops f tw m n fstride mm
      = kf_bfly4_mx_general ops f tw m n fstride mm := by
    unfold kf_bfly4_mx
    by_cases h1 : fstride = 1
    · rw [if_pos h1, h1]
      unfold kf_bfly4_mx_fast kf_bfly4_mx_general
      exact iterF_congr _ _ n.toNat f
        (fun k hk t => mxGroupFast_eq_gen ops tw m (mm*(k:Int)) t)
    · rw [if_neg h1]
  rw [hpath]
  unfold kf_bfly4_mx_general
  have hiN : i < n.toNat := by omega
  have hstableG : ∀ q : Int, mm*(i:Int) ≤ q → q < mm*(i:Int) + 4*m →
      iterF (fun k => mxGroupGen ops tw m fstride (mm*(k:Int))) n.toNat f q
        = mxGroupGen ops tw m fstride (mm*(i:Int))
            (iterF (fun k => mxGroupGen ops tw m fstride (mm*(k:Int))) i f) q := by
    intro q hq1 hq2
    rw [iterF_stable _ n.toNat i f q hiN
        (fun k h1 h2 t => mxGroupGen_frame ops tw m fstride (mm*(k:Int)) t q
          (by have := base_sep mm (4*m) i k (by omega) h4m h1; omega)),
      iterF_succ]
  have hreadsG : ∀ q : Int, mm*(i:Int) ≤ q → q < mm*(i:Int) + 4*m →
      iterF (fun k => mxGroupGen ops tw m fstride (mm*(k:Int))) i f q = f q := by
    intro q hq1 hq2
    exact iterF_preserve _ i f q
      (fun k hk t => mxGroupGen_frame ops tw m fstride (mm*(k:Int)) t q
        (by have := base_sep mm (4*m) k i (by omega) h4m hk; omega))
  obtain ⟨g0, g1, g2, g3⟩ :=
    mxGroupGen_at ops tw m fstride (mm*(i:Int))
      (iterF (fun k => mxGroupGen ops tw m fstride (mm*(k:Int))) i f) j hj
  have hcongr : mxRead ops tw m fstride (mm*(i:Int)) j
      (iterF (fun k => mxGroupGen ops tw m fstride (mm*(k:Int))) i f)
        = mxRead ops tw m fstride (mm*(i:Int)) j f := by
    unfold mxRead
    rw [hreadsG (mm*(i:Int) + (j:Int)) (by omega) (by omega),
      hreadsG (mm*(i:Int) + (j:Int) + m) (by omega) (by omega),
      hreadsG (mm*(i:Int) + (j:Int) + 2*m) (by omega) (by omega),
      hreadsG (mm*(i:Int) + (j:Int) + 3*m) (by omega) (by omega)]
  have hspec : mxRead ops tw m fstride (mm*(i:Int)) j f
      = bfly4Combine ops (f (mm*(i:Int) + (j:Int)))
          (cmulSpec ops (f (mm*(i:Int) + (j:Int) + m)) (tw ((j:Int)*fstride)))
          (cmulSpec ops (f (mm*(i:Int) + (j:Int) + 2*m)) (tw (2*((j:Int)*fstride))))
          (cmulSpec ops (f (mm*(i:Int) + (j:Int) + 3*m)) (tw (3*((j:Int)*fstride)))) := by
    unfold mxRead
    rw [mxCombine_spec ops L]
  exact ⟨by rw [hstableG _ (by omega) (by omega), g0, hcongr, hspec],
         by rw [hstableG _ (by omega) (by omega), g1, hcongr, hspec],
         by rw [hstableG _ (by omega) (by omega), g2, hcongr, hspec],
         by rw [hstableG _ (by omega) (by omega), g3, hcongr, hspec]⟩

/-- Witness for C4 at F = Q, m = 2, n = 1, fstride = 3, mm = 8, i = 0,
j = 1. -/
theorem C4_bfly4_mx_witness :
    ((1:Int) ≤ 2 ∧ (4*2 : Int) ≤ 8 ∧ (0:Int) < 1 ∧ (1:Int) < 2) ∧
    kf_bfly4_mx ratOps (fun q => ((q:ℚ), (q:ℚ)+1)) (fun q => (2*(q:ℚ), (q:ℚ)))
        2 1 3 8 (8*((0:Nat):Int) + ((1:Nat):Int))
      = (bfly4Combine ratOps
          ((fun q => ((q:ℚ), (q:ℚ)+1)) (8*((0:Nat):Int) + ((1:Nat):Int)))
          (cmulSpec ratOps ((fun q => ((q:ℚ), (q:ℚ)+1)) (8*((0:Nat):Int) + ((1:Nat):Int) + 2))
            ((fun q => (2*(q:ℚ), (q:ℚ))) (((1:Nat):Int)*3)))
          (cmulSpec ratOps ((fun q => ((q:ℚ), (q:ℚ)+1)) (8*((0:Nat):Int) + ((1:Nat):Int) + 2*2))
            ((fun q => (2*(q:ℚ), (q:ℚ))) (2*(((1:Nat):Int)*3))))
          (cmulSpec ratOps ((fun q => ((q:ℚ), (q:ℚ)+1)) (8*((0:Nat):Int) + ((1:Nat):Int) + 3*2))
            ((fun q => (2*(q:ℚ), (q:ℚ))) (3*(((1:Nat):Int)*3))))).1 :=
  ⟨⟨by norm_num, by norm_num, by norm_num, by norm_num⟩, by
    have h := (C4_bfly4_mx ratOps ratLaws (fun q => ((q:ℚ), (q:ℚ)+1))
      (fun q => (2*(q:ℚ), (q:ℚ))) 2 1 3 8 (by norm_num) (by norm_num)
      0 1 (by norm_num) (by norm_num)).1
    norm_num at h ⊢
    exact h⟩

end Butterflies

end Gopus
